import Mathlib

/-!
# Verification of the engram librarian pipeline

Shallow embedding of `src/librarian/fetch_wi_batch.py` and
`src/librarian/validate_compliance.py`.  Text is modelled as `List Char`
(Python `str`, at the character-level operations the scripts use; `str.lower`
is modelled on ASCII letters, which is all the vocabulary tables and
identifier conventions exercise).  The YAML loader used by the validator is
modelled on the block-mapping documents this pipeline emits: a top-level map
of scalar lines, one nested two-space-indented block, and bracketed flow
sequences of double-quoted strings, with plain scalars resolved by the
loader's core rules (boolean and null words, decimal integers, everything
else a string).  Fallible steps return `Option`/`Except`.
-/

namespace Engram

/-- Python strings, modelled as lists of characters. -/
abbrev Str := List Char

/-- Coerce a Lean string literal to the `Str` model. -/
def str (s : String) : Str := s.data

/-- Python `str.lower`, modelled on ASCII (the scripts only lower-case
ASCII identifiers, vocabulary keys and keyword text). -/
def pyLower (s : Str) : Str := s.map Char.toLower

/-- `fetch_wi_batch.sanitize_id` (lines 56-59):
`work_item_id.lower().replace("-", ".")`.  Python `str.replace` with a
single-character pattern replaces every occurrence, modelled characterwise. -/
def sanitize_id (work_item_id : Str) : Str :=
  (pyLower work_item_id).map (fun c => if c = '-' then '.' else c)

/-- `fetch_wi_batch.map_wi_type_to_neurona_type` (lines 73-86):
`type_mapping.get(wi_type, "concept")`, a case-sensitive dict lookup. -/
def map_wi_type_to_neurona_type (wi_type : Str) : Str :=
  if wi_type = str "systemRequirement" then str "requirement"
  else if wi_type = str "requirement" then str "requirement"
  else if wi_type = str "task" then str "task"
  else if wi_type = str "defect" then str "issue"
  else if wi_type = str "bug" then str "issue"
  else if wi_type = str "testCase" then str "test_case"
  else if wi_type = str "feature" then str "feature"
  else if wi_type = str "story" then str "feature"
  else if wi_type = str "epic" then str "feature"
  else str "concept"

/-- `fetch_wi_batch.map_status_to_tags` (lines 89-100):
`status_tags.get(status.lower(), ["unknown"])`. -/
def map_status_to_tags (status : Str) : List Str :=
  let s := pyLower status
  if s = str "approved" then [str "approved", str "active"]
  else if s = str "draft" then [str "draft", str "wip"]
  else if s = str "implemented" then [str "implemented", str "complete"]
  else if s = str "verified" then [str "verified", str "tested"]
  else if s = str "closed" then [str "closed", str "archived"]
  else if s = str "open" then [str "open", str "active"]
  else if s = str "in_progress" then [str "wip", str "active"]
  else [str "unknown"]

/-- `fetch_wi_batch.map_polarion_link_to_connection_type` (lines 103-119):
`link_mapping.get(link_role.lower(), "relates_to")`. -/
def map_polarion_link_to_connection_type (link_role : Str) : Str :=
  let r := pyLower link_role
  if r = str "parent" then str "parent"
  else if r = str "child" then str "child"
  else if r = str "relates_to" then str "relates_to"
  else if r = str "blocks" then str "blocks"
  else if r = str "depends_on" then str "blocked_by"
  else if r = str "verifies" then str "validates"
  else if r = str "verified_by" then str "validated_by"
  else if r = str "implements" then str "implements"
  else if r = str "implemented_by" then str "implemented_by"
  else if r = str "tests" then str "tests"
  else if r = str "tested_by" then str "tested_by"
  else if r = str "related" then str "related"
  else str "relates_to"

/-- The `type_mapping` dict of `map_wi_type_to_neurona_type` as key/value pairs. -/
def typeTable : List (Str × Str) :=
  [(str "systemRequirement", str "requirement"), (str "requirement", str "requirement"),
   (str "task", str "task"), (str "defect", str "issue"), (str "bug", str "issue"),
   (str "testCase", str "test_case"), (str "feature", str "feature"),
   (str "story", str "feature"), (str "epic", str "feature")]

/-- The `status_tags` dict of `map_status_to_tags` as key/value pairs. -/
def statusTable : List (Str × List Str) :=
  [(str "approved", [str "approved", str "active"]),
   (str "draft", [str "draft", str "wip"]),
   (str "implemented", [str "implemented", str "complete"]),
   (str "verified", [str "verified", str "tested"]),
   (str "closed", [str "closed", str "archived"]),
   (str "open", [str "open", str "active"]),
   (str "in_progress", [str "wip", str "active"])]

/-- The `link_mapping` dict of `map_polarion_link_to_connection_type`. -/
def linkTable : List (Str × Str) :=
  [(str "parent", str "parent"), (str "child", str "child"),
   (str "relates_to", str "relates_to"), (str "blocks", str "blocks"),
   (str "depends_on", str "blocked_by"), (str "verifies", str "validates"),
   (str "verified_by", str "validated_by"), (str "implements", str "implements"),
   (str "implemented_by", str "implemented_by"), (str "tests", str "tests"),
   (str "tested_by", str "tested_by"), (str "related", str "related")]

/-- Modelled from the spec (§3): the closed canonical type enumeration
`{requirement, task, issue, test_case, feature, concept}`. -/
def specTypeEnum : List Str :=
  [str "requirement", str "task", str "issue", str "test_case",
   str "feature", str "concept"]

/-- Boolean test that `p` is an initial segment of `s`. -/
def isPre : Str → Str → Bool
  | [], _ => true
  | _ :: _, [] => false
  | a :: as, b :: bs => a = b && isPre as bs

/-- Boolean substring test (`needle in haystack` for Python strings). -/
def containsB (needle : Str) : Str → Bool
  | [] => isPre needle []
  | c :: t => isPre needle (c :: t) || containsB needle t

/-- Substring occurrence as a decomposition. -/
def Occurs (needle s : Str) : Prop := ∃ x y, s = x ++ needle ++ y

/-- Python's single-character membership test `ch in s`. -/
def hasChar (ch : Char) (s : Str) : Bool := decide (ch ∈ s)

/-- Split a string at every occurrence of the character `ch` (occurrences are
dropped); models Python's `s.split(ch)`. -/
def splitOnCh (ch : Char) : Str → List Str
  | [] => [[]]
  | c :: t =>
    if c = ch then [] :: splitOnCh ch t
    else
      match splitOnCh ch t with
      | h :: r => (c :: h) :: r
      | [] => [[c]]

/-- Join string pieces with a single dot between adjacent pieces. -/
def joinDot : List Str → Str
  | [] => []
  | [x] => x
  | x :: y :: r => x ++ '.' :: joinDot (y :: r)

/-- Modelled from the spec (§4.1 as read by claim C2): lower-case the input and
replace only the *first* hyphen with a dot. -/
def specSanitizeFirst (s : Str) : Str :=
  let rec go : Str → Str
    | [] => []
    | c :: t => if c = '-' then '.' :: t else c :: go t
  go (pyLower s)

/-- Modelled from the spec's amended reading: lower-case and replace *every*
hyphen with a dot, formulated independently of `sanitize_id` as
split-at-hyphens / join-with-dots. -/
def specSanitizeAll (s : Str) : Str :=
  joinDot (splitOnCh '-' (pyLower s))

/-! ## Work items and tag construction (`convert_to_neurona`, lines 288-327) -/

/-- The attribute values `convert_to_neurona` extracts from a fetched work
item (lines 291-304): `description` is the HTML-cleaned text and `priority`
is modelled as an optional natural number (the scripts only ever test it for
truthiness and format it back to text). -/
structure WorkItem where
  wi_id : Str
  wi_type : Str
  title : Str
  description : Str
  status : Str
  updated : Str
  priority : Option Nat
  assignee : Option Str
  author : Option Str
deriving DecidableEq

/-- One step of Python's `dict.fromkeys` insertion used for tag dedup. -/
def dedupStep (acc : List Str) (t : Str) : List Str :=
  if t ∈ acc then acc else acc ++ [t]

/-- `list(dict.fromkeys(tags))` (line 327): keep the first occurrence of each
tag, in insertion order. -/
def dedupFromKeys (l : List Str) : List Str := l.foldl dedupStep []

/-- The keyword tag rules of lines 315-325, evaluated on the lower-cased
title-plus-description text. -/
def inferKeywordTags (text : Str) : List Str :=
  (if containsB (str "sensor") text then [str "sensor"] else []) ++
  (if containsB (str "temperature") text then [str "temperature"] else []) ++
  (if containsB (str "configuration") text || containsB (str "config") text then
    [str "configuration"] else []) ++
  (if containsB (str "fault") text || containsB (str "error") text then
    [str "fault-detection"] else []) ++
  (if containsB (str "micro") text || containsB (str "controller") text then
    [str "microcontroller"] else [])

/-- The tag list of line 312 before dedup: provenance tag, raw type,
status-derived tags, then inferred keyword tags. -/
def rawTagList (w : WorkItem) : List Str :=
  str "polarion" :: w.wi_type :: (map_status_to_tags w.status ++
    inferKeywordTags (pyLower (w.title ++ str " " ++ w.description)))

/-- The final `tags` value of `convert_to_neurona` (lines 312-327). -/
def buildTags (w : WorkItem) : List Str := dedupFromKeys (rawTagList w)

/-- Index of the first occurrence of `a` in a list (length of the list when
absent). -/
def firstIdx (a : Str) : List Str → Nat
  | [] => 0
  | b :: t => if a = b then 0 else firstIdx a t + 1

/-! ## Relationship extraction (`extract_relationships`, lines 122-166) -/

/-- One linked-work-item descriptor as read from the payload (lines 131-133):
`link.get("id")` and `link.get("role", "relates_to")`. -/
structure Link where
  id : Option Str
  role : Option Str
deriving DecidableEq

/-- One emitted relationship edge (lines 155-161). -/
structure Rel where
  target_id : Str
  connection_type : Str
  weight : Nat
deriving DecidableEq

/-- The segment test of lines 144-148: case-sensitive literal tests
`part.startswith("wi.") or part.startswith("WI-") or part.startswith("WI.")`. -/
def wiSegMatch (part : Str) : Bool :=
  isPre (str "wi.") part || isPre (str "WI-") part || isPre (str "WI.") part

/-- The link-id clean-up of lines 139-152: when the reference contains a
slash, scan its segments from the end backward for the first one matching
`wiSegMatch` and sanitize it; if none matches the raw reference is kept
unchanged.  Without a slash the whole reference is sanitized. -/
def cleanLinkId (lid : Str) : Str :=
  if hasChar '/' lid then
    match (splitOnCh '/' lid).reverse.find? wiSegMatch with
    | some part => sanitize_id part
    | none => lid
  else sanitize_id lid

/-- `extract_relationships` (lines 122-166), given the already-extracted
linked-work-item list: skip links with missing or empty id (Python
truthiness), clean the id, map the role, and emit weight 80. -/
def extract_relationships (links : List Link) : List Rel :=
  links.filterMap fun link =>
    match link.id with
    | none => none
    | some lid =>
      if lid = [] then none
      else some ⟨cleanLinkId lid,
        map_polarion_link_to_connection_type (link.role.getD (str "relates_to")), 80⟩

/-! ## Decimal rendering and parsing of numbers -/

/-- The ASCII digit character for `d < 10`. -/
def digitChar (d : Nat) : Char := Char.ofNat (48 + d)

/-- Fuel-driven decimal rendering; `fuel` bounds the recursion depth and is
always sufficient when it exceeds the number of digits. -/
def natToStrAux : Nat → Nat → Str
  | 0, _ => []
  | fuel + 1, n =>
    if n < 10 then [digitChar n]
    else natToStrAux fuel (n / 10) ++ [digitChar (n % 10)]

/-- Python `str(n)` for a natural number. -/
def natToStr (n : Nat) : Str := natToStrAux (n + 1) n

/-- Value of a string of decimal digits. -/
def strToNat (s : Str) : Nat := s.foldl (fun a c => a * 10 + (c.toNat - 48)) 0

/-- ASCII decimal digit, by code point. -/
def isDigitN (c : Char) : Bool := 48 ≤ c.toNat && c.toNat ≤ 57

/-- ASCII letter, by code point. -/
def isAlphaN (c : Char) : Bool :=
  (65 ≤ c.toNat && c.toNat ≤ 90) || (97 ≤ c.toNat && c.toNat ≤ 122)

/-- Non-empty all-digit test. -/
def isDecDigits (s : Str) : Bool := !s.isEmpty && s.all isDigitN

/-- The loader's decimal-integer pattern `[-+]?[0-9]+`. -/
def isDecInt (s : Str) : Bool :=
  match s with
  | [] => false
  | c :: r => if c = '+' || c = '-' then isDecDigits r else isDecDigits (c :: r)

/-- Integer value of a scalar matching `isDecInt`. -/
def decToInt (s : Str) : Int :=
  match s with
  | [] => 0
  | c :: r =>
    if c = '-' then -(strToNat r : Int)
    else if c = '+' then (strToNat r : Int)
    else (strToNat (c :: r) : Int)

/-! ## YAML values and the tiered validator (`validate_compliance.py`) -/

/-- YAML values as decoded by the loader for the documents this pipeline
emits.  Floating-point scalars are not modelled: no plain scalar the
serializer produces resolves as a float and no claim exercises one. -/
inductive Yaml where
  | null : Yaml
  | bool : Bool → Yaml
  | int : Int → Yaml
  | string : Str → Yaml
  | list : List Yaml → Yaml
  | map : List (Str × Yaml) → Yaml

/-- The Python exceptions the validators can raise. -/
inductive PyErr where
  | typeError : PyErr
deriving DecidableEq

/-- Validation issue messages, one constructor per `issues.append` site in
`validate_compliance.py`, carrying the offending value the message
interpolates. -/
inductive Issue where
  | missingTier1 : Str → Issue
  | emptyTier1 : Str → Issue
  | idNotDotted : Yaml → Issue
  | tagsNotList : Yaml → Issue
  | invalidType : Yaml → Issue
  | updatedNotString : Yaml → Issue
  | languageBad : Yaml → Issue
  | contextNotDict : Yaml → Issue
  | llmNotDict : Yaml → Issue
  | llmDRange : Yaml → Issue
  | llmKNotList : Yaml → Issue

/-- Dict lookup on a parsed header (keys in our headers are unique). -/
def findKey (k : Str) : List (Str × Yaml) → Option Yaml
  | [] => none
  | (k2, v) :: r => if k2 = k then some v else findKey k r

/-- Python truthiness of a decoded YAML value. -/
def pyTruthy : Yaml → Bool
  | .null => false
  | .bool b => b
  | .int n => n ≠ 0
  | .string s => !s.isEmpty
  | .list l => !l.isEmpty
  | .map m => !m.isEmpty

def isYStr : Yaml → Bool
  | .string _ => true
  | _ => false

def isYList : Yaml → Bool
  | .list _ => true
  | _ => false

def isYMap : Yaml → Bool
  | .map _ => true
  | _ => false

/-- Python `v in listOfStrings` for a decoded value: only an equal string
matches (no decoded value compares equal to a `str` across types). -/
def yamlInStrList (v : Yaml) (l : List Str) : Bool :=
  match v with
  | .string s => decide (s ∈ l)
  | _ => false

/-- Python `needle in v` for a string needle: substring test on strings,
element equality on lists, key membership on dicts, `TypeError` otherwise. -/
def pyContainsStr (needle : Str) : Yaml → Except PyErr Bool
  | .string s => .ok (containsB needle s)
  | .list l => .ok (l.any fun e =>
      match e with
      | .string s => decide (s = needle)
      | _ => false)
  | .map m => .ok (m.any fun kv => decide (kv.1 = needle))
  | _ => .error .typeError

/-- Python `1 <= v <= 4`: defined for ints and bools (`True == 1`,
`False == 0`), `TypeError` otherwise. -/
def pyRange14 : Yaml → Except PyErr Bool
  | .int n => .ok (decide (1 ≤ n ∧ n ≤ 4))
  | .bool b => .ok b
  | _ => .error .typeError

/-- The `valid_types` list of `validate_tier2` (lines 67-77). -/
def valid_types : List Str :=
  [str "concept", str "reference", str "artifact", str "state_machine",
   str "lesson", str "requirement", str "test_case", str "issue", str "feature"]

/-- The required-field loop body of `validate_tier1` (lines 43-48). -/
def reqIssue (fm : List (Str × Yaml)) (field : Str) : List Issue :=
  match findKey field fm with
  | none => [Issue.missingTier1 field]
  | some v => if pyTruthy v then [] else [Issue.emptyTier1 field]

/-- `validate_tier1` (lines 38-58): required fields, dot-notation id check
(which evaluates `"." not in fm["id"]` and can raise), tags-is-list check. -/
def validate_tier1 (fm : List (Str × Yaml)) : Except PyErr (List Issue) := do
  let req := reqIssue fm (str "id") ++ reqIssue fm (str "title") ++ reqIssue fm (str "tags")
  let dotIssues ←
    match findKey (str "id") fm with
    | none => pure []
    | some v => do
        let hasDot ← pyContainsStr (str ".") v
        pure (if hasDot then ([] : List Issue) else [Issue.idNotDotted v])
  let tagIssues :=
    match findKey (str "tags") fm with
    | some v => if isYList v then [] else [Issue.tagsNotList v]
    | none => []
  pure (req ++ dotIssues ++ tagIssues)

/-- `validate_tier2` (lines 61-96): type enumeration, updated-is-string and
two-character language checks; a total function. -/
def validate_tier2 (fm : List (Str × Yaml)) : List Issue :=
  (match findKey (str "type") fm with
   | some v => if yamlInStrList v valid_types then [] else [Issue.invalidType v]
   | none => []) ++
  (match findKey (str "updated") fm with
   | some v => if isYStr v then [] else [Issue.updatedNotString v]
   | none => []) ++
  (match findKey (str "language") fm with
   | some v =>
     (match v with
      | .string s => if s.length = 2 then [] else [Issue.languageBad v]
      | _ => [Issue.languageBad v])
   | none => [])

/-- `validate_tier3` (lines 99-121): context-is-dict check, then the `_llm`
block whose `d` range test `1 <= llm["d"] <= 4` can raise. -/
def validate_tier3 (fm : List (Str × Yaml)) : Except PyErr (List Issue) := do
  let ctxIssues :=
    match findKey (str "context") fm with
    | some v => if isYMap v then [] else [Issue.contextNotDict v]
    | none => []
  match findKey (str "_llm") fm with
  | none => pure ctxIssues
  | some llm =>
    match llm with
    | .map m => do
        let dIssues ←
          match findKey (str "d") m with
          | none => pure ([] : List Issue)
          | some dv => do
              let inRange ← pyRange14 dv
              pure (if inRange then ([] : List Issue) else [Issue.llmDRange dv])
        let kIssues :=
          match findKey (str "k") m with
          | some kv => if isYList kv then [] else [Issue.llmKNotList kv]
          | none => []
        pure (ctxIssues ++ dIssues ++ kIssues)
    | _ => pure (ctxIssues ++ [Issue.llmNotDict llm])

/-- The three validator verdicts printed by `validate_neurona`. -/
inductive Verdict where
  | nonCompliant : Verdict
  | compliantWithWarnings : Verdict
  | fullyCompliant : Verdict
deriving DecidableEq

/-- Outcome of `validate_neurona` on a parsed document: the three tier issue
lists, the printed verdict, and the returned boolean. -/
structure VerdictResult where
  t1 : List Issue
  t2 : List Issue
  t3 : List Issue
  verdict : Verdict
  success : Bool

/-- The tier-running and verdict logic of `validate_neurona`
(lines 137-195) on a parsed header. -/
def runValidation (fm : List (Str × Yaml)) : Except PyErr VerdictResult := do
  let t1 ← validate_tier1 fm
  let t2 := validate_tier2 fm
  let t3 ← validate_tier3 fm
  if (t1 ++ t2 ++ t3).isEmpty then
    pure ⟨t1, t2, t3, .fullyCompliant, true⟩
  else if !t1.isEmpty then
    pure ⟨t1, t2, t3, .nonCompliant, false⟩
  else
    pure ⟨t1, t2, t3, .compliantWithWarnings, true⟩

/-! ## The document parser (`load_neurona`, lines 19-35) -/

/-- Boolean test that `p` occurs in `s`; on success, the text before the
first occurrence and the text after it. -/
def splitOnce (sep : Str) : Str → Option (Str × Str)
  | [] => if isPre sep [] then some ([], []) else none
  | c :: t =>
    if isPre sep (c :: t) then some ([], List.drop sep.length (c :: t))
    else (splitOnce sep t).map fun p => (c :: p.1, p.2)

/-- Python `s.split(sep, 2)`: at most two splits, the remainder kept whole. -/
def pySplit2 (sep : Str) (s : Str) : List Str :=
  match splitOnce sep s with
  | none => [s]
  | some (a, r1) =>
    match splitOnce sep r1 with
    | none => [a, r1]
    | some (b, r2) => [a, b, r2]

/-- Python whitespace for `str.strip()`. -/
def isPyWS (c : Char) : Bool :=
  c = ' ' || c = '\t' || c = '\n' || c = '\r' || c = '\x0b' || c = '\x0c'

def lstrip (s : Str) : Str := s.dropWhile isPyWS

def rstrip (s : Str) : Str := (s.reverse.dropWhile isPyWS).reverse

/-- Python `str.strip()`. -/
def pyStrip (s : Str) : Str := rstrip (lstrip s)

/-- The loader's true boolean words (YAML 1.1 resolver). -/
def boolTrueWords : List Str :=
  [str "y", str "Y", str "yes", str "Yes", str "YES", str "true", str "True",
   str "TRUE", str "on", str "On", str "ON"]

/-- The loader's false boolean words (YAML 1.1 resolver). -/
def boolFalseWords : List Str :=
  [str "n", str "N", str "no", str "No", str "NO", str "false", str "False",
   str "FALSE", str "off", str "Off", str "OFF"]

/-- The loader's null words. -/
def nullWords : List Str := [str "~", str "null", str "Null", str "NULL"]

/-- Plain-scalar resolution for the scalars this pipeline emits: boolean and
null words, decimal integers, everything else a string.  Other numeric forms
(floats, base-prefixed or sexagesimal integers, timestamps) never arise from
the serializer's plain scalars and are outside every claim. -/
def resolvePlain (s : Str) : Yaml :=
  if s ∈ boolTrueWords then .bool true
  else if s ∈ boolFalseWords then .bool false
  else if s.isEmpty || decide (s ∈ nullWords) then .null
  else if isDecInt s then .int (decToInt s)
  else .string s

/-- Scan up to the next double quote: the content before it and the rest
after it. -/
def scanQuote : Str → Option (Str × Str)
  | [] => none
  | c :: rest =>
    if c = '"' then some ([], rest)
    else (scanQuote rest).map fun p => (c :: p.1, p.2)

/-- Fuel-driven parser for the inside of a flow sequence of double-quoted
strings (`"a", "b"]`); fuel bounds the recursion and any fuel at least the
input length suffices. -/
def parseFlowItemsF : Nat → Str → Option (List Yaml)
  | _, [']'] => some []
  | 0, _ => none
  | fuel + 1, '"' :: rest =>
    (match scanQuote rest with
     | some (item, after) =>
       match after with
       | [']'] => some [Yaml.string item]
       | ',' :: ' ' :: more => (parseFlowItemsF fuel more).map (Yaml.string item :: ·)
       | _ => none
     | none => none)
  | _ + 1, _ => none

/-- Parse the inside of a flow sequence. -/
def parseFlowItems (s : Str) : Option (List Yaml) := parseFlowItemsF s.length s

/-- Parse one scalar value: a double-quoted string, a flow sequence, or a
plain scalar. -/
def parseValue (v : Str) : Option Yaml :=
  match v with
  | [] => some (resolvePlain [])
  | c :: rest =>
    if c = '"' then
      match scanQuote rest with
      | some (content, []) => some (Yaml.string content)
      | _ => none
    else if c = '[' then (parseFlowItems rest).map Yaml.list
    else some (resolvePlain (c :: rest))

/-- Split a mapping line at the first `": "` into key and value. -/
def splitKV (line : Str) : Option (Str × Str) := splitOnce (str ": ") line

/-- Parse the two-space-indented scalar lines of a nested block. -/
def parseSubLines : List Str → Option (List (Str × Yaml))
  | [] => some []
  | line :: rest =>
    if isPre (str "  ") line then
      match splitKV (line.drop 2) with
      | some (k, v) => do
          let y ← parseValue v
          let m ← parseSubLines rest
          pure ((k, y) :: m)
      | none => none
    else none

/-- Fuel-driven parser for a top-level block mapping: scalar lines `key: v`,
blank lines skipped, and a `key:` line opening a two-space-indented nested
block.  Fuel bounds the recursion and any fuel at least the line count
suffices. -/
def parseLinesF : Nat → List Str → Option (List (Str × Yaml))
  | _, [] => some []
  | 0, _ :: _ => none
  | fuel + 1, line :: rest =>
    if line.isEmpty then parseLinesF fuel rest
    else if isPre (str "  ") line then none
    else
      match splitKV line with
      | some (k, v) => do
          let y ← parseValue v
          let m ← parseLinesF fuel rest
          pure ((k, y) :: m)
      | none =>
        if line.getLast? = some ':' then
          let sub := rest.takeWhile (fun l => isPre (str "  ") l)
          let remaining := rest.dropWhile (fun l => isPre (str "  ") l)
          do
            let subPairs ← parseSubLines sub
            let m ← parseLinesF fuel remaining
            pure ((line.dropLast, Yaml.map subPairs) :: m)
        else none

/-- Parse a block mapping from a list of lines. -/
def parseLines (ls : List Str) : Option (List (Str × Yaml)) :=
  parseLinesF ls.length ls

/-- `yaml.safe_load` on a frontmatter text, modelled for the block-mapping
documents this pipeline emits (see the file header). -/
def yamlParseHeader (s : Str) : Option (List (Str × Yaml)) :=
  parseLines (splitOnCh '\n' s)

/-- The two structural parse failures of `load_neurona`, plus a loader
error for text outside the modelled YAML fragment. -/
inductive LoadErr where
  | missingFrontmatter : LoadErr
  | malformedFrontmatter : LoadErr
  | yamlError : LoadErr
deriving DecidableEq

/-- The frontmatter delimiter `"---\n"`. -/
def delim : Str := str "---\n"

/-- `load_neurona` (lines 19-35) on the file content: check the leading
delimiter, split at most twice on it, decode the header, strip the body. -/
def load_neurona (content : Str) : Except LoadErr (List (Str × Yaml) × Str) :=
  if isPre delim content then
    match pySplit2 delim content with
    | [_, fmText, body] =>
      match yamlParseHeader fmText with
      | some pairs => .ok (pairs, pyStrip body)
      | none => .error .yamlError
    | _ => .error .malformedFrontmatter
  else .error .missingFrontmatter

/-! ## The document serializer (`convert_to_neurona`, lines 334-388) -/

/-- Join pieces with a separator between adjacent pieces (Python
`sep.join(...)`). -/
def joinSep (sep : Str) : List Str → Str
  | [] => []
  | [x] => x
  | x :: y :: r => x ++ sep ++ joinSep sep (y :: r)

/-- The `"<connection_type>:<target_id>:<weight>"` rendering of line 177. -/
def connStr (r : Rel) : Str :=
  r.connection_type ++ ':' :: r.target_id ++ ':' :: natToStr r.weight

/-- `format_connections_yaml` (lines 169-181). -/
def format_connections_yaml (rels : List Rel) : Str :=
  if rels = [] then []
  else (str "connections: [") ++
    joinSep (str ", ") (rels.map fun r => '"' :: connStr r ++ str "\"") ++ str "]"

/-- `json.dumps` on a list of strings, modelled for printable-ASCII strings
without double quotes or backslashes (on which no escaping happens); the
round-trip validity predicate restricts tags accordingly. -/
def jsonDumpsList (ts : List Str) : Str :=
  (str "[") ++ joinSep (str ", ") (ts.map fun t => '"' :: t ++ str "\"") ++ str "]"

/-- Concatenate lines, terminating each with a newline. -/
def unlines (ls : List Str) : Str := ls.foldr (fun l acc => l ++ '\n' :: acc) []

/-- The indented lines of the context block (lines 336-348). -/
def ctxSubLines (proj : Str) (w : WorkItem) : List Str :=
  [str "  source: \"polarion\"",
   (str "  original_id: \"") ++ w.wi_id ++ str "\"",
   (str "  status: \"") ++ w.status ++ str "\"",
   (str "  project: \"") ++ proj ++ str "\""]
  ++ (match w.priority with
      | some p => if p = 0 then [] else [(str "  priority: ") ++ natToStr p]
      | none => [])
  ++ (match w.assignee with
      | some a => if a.isEmpty then [] else [(str "  assignee: \"") ++ a ++ str "\""]
      | none => [])
  ++ (match w.author with
      | some a => if a.isEmpty then [] else [(str "  author: \"") ++ a ++ str "\""]
      | none => [])

/-- The `context_lines` block of lines 335-350; `proj` is the module-level
`PROJECT_ID` configuration, passed explicitly. -/
def contextLines (proj : Str) (w : WorkItem) : List Str :=
  str "context:" :: ctxSubLines proj w

/-- The frontmatter lines of lines 352-365 in order: id, title, type, tags,
updated, the context block, then the optional connections line. -/
def headerLines (proj : Str) (w : WorkItem) (rels : List Rel) : List Str :=
  [(str "id: ") ++ sanitize_id w.wi_id,
   (str "title: ") ++ w.title,
   (str "type: ") ++ map_wi_type_to_neurona_type w.wi_type,
   (str "tags: ") ++ jsonDumpsList (buildTags w),
   (str "updated: \"") ++ w.updated ++ str "\""]
  ++ contextLines proj w
  ++ (if rels = [] then [] else [format_connections_yaml rels])

/-- The metadata section of lines 375-386 up to, but not including, the
closing `)` of the portal link. -/
def metaCore (proj : Str) (w : WorkItem) : Str :=
  (str "## Metadata\n\n- **Original ID**: ") ++ w.wi_id ++
  (str "\n- **Type**: ") ++ w.wi_type ++
  (str "\n- **Status**: ") ++ w.status ++ str "\n" ++
  (match w.priority with
   | some p => if p = 0 then [] else (str "- **Priority**: ") ++ natToStr p ++ str "\n"
   | none => []) ++
  (match w.assignee with
   | some a => if a.isEmpty then [] else (str "- **Assignee**: ") ++ a ++ str "\n"
   | none => []) ++
  (match w.author with
   | some a => if a.isEmpty then [] else (str "- **Author**: ") ++ a ++ str "\n"
   | none => []) ++
  (str "- **Project**: ") ++ proj ++
  (str "\n- **Portal**: [") ++ w.wi_id ++
  (str "](https://polarionprod1.aptiv.com/polarion/redirect/project/") ++ proj ++
  (str "/workitem?id=") ++ w.wi_id

/-- The full metadata section (lines 375-386). -/
def metaText (proj : Str) (w : WorkItem) : Str := metaCore proj w ++ str ")\n"

/-- The document built by `convert_to_neurona` (lines 334-388) from the
extracted attributes and relationships: frontmatter between delimiter lines,
then the description (when non-empty, Python truthiness), then the metadata
section. -/
def convert_to_neurona (proj : Str) (w : WorkItem) (rels : List Rel) : Str :=
  delim ++ unlines (headerLines proj w rels) ++ (str "---\n\n") ++
  (if w.description.isEmpty then [] else w.description ++ str "\n\n") ++
  metaText proj w

/-! ## Round-trip validity (claim C5) -/

def asciiPrintable (c : Char) : Bool := 32 ≤ c.toNat && c.toNat ≤ 126

/-- Characters safe inside the serializer's double-quoted scalars and JSON
string literals: printable ASCII without the quote and backslash. -/
def quotedSafeChar (c : Char) : Bool := asciiPrintable c && c ≠ '"' && c ≠ '\\'

def quotedSafe (s : Str) : Bool := s.all quotedSafeChar

/-- Characters safe inside an emitted plain scalar. -/
def plainChar (c : Char) : Bool :=
  isAlphaN c || isDigitN c || c = '_' || c = '-' || c = '.' || c = ' '

/-- A plain scalar the loader resolves back to the same string: non-empty,
letter-initial, over `plainChar`, no trailing space, and not a boolean or
null word. -/
def plainSafe (s : Str) : Bool :=
  match s with
  | [] => false
  | c :: _ =>
    isAlphaN c && s.all plainChar && decide (s.getLast? ≠ some ' ') &&
      decide (s ∉ boolTrueWords) && decide (s ∉ boolFalseWords) &&
      decide (s ∉ nullWords)

/-- The YAML-safety conditions under which the amended round-trip holds:
plain-scalar fields resolve back to themselves, quoted fields contain no
quote or backslash, the description does not start with whitespace, no
header line contains a newline, and the header text contains no `"---\n"`. -/
def c5SafeB (proj : Str) (w : WorkItem) (rels : List Rel) : Bool :=
  plainSafe (sanitize_id w.wi_id) &&
  plainSafe w.title &&
  quotedSafe w.updated &&
  quotedSafe w.wi_id &&
  quotedSafe w.status &&
  quotedSafe proj &&
  (buildTags w).all quotedSafe &&
  (match w.assignee with
   | some a => quotedSafe a
   | none => true) &&
  (match w.author with
   | some a => quotedSafe a
   | none => true) &&
  rels.all (fun r => quotedSafe r.target_id && quotedSafe r.connection_type) &&
  (match w.description with
   | [] => true
   | c :: _ => !isPyWS c) &&
  (headerLines proj w rels).all (fun l => !hasChar '\n' l) &&
  !containsB delim (unlines (headerLines proj w rels))

/-- The header `context` map the parser recovers: exactly the serialized
context fields, with the same truthiness-based omissions. -/
def expectedContext (proj : Str) (w : WorkItem) : List (Str × Yaml) :=
  [(str "source", Yaml.string (str "polarion")),
   (str "original_id", Yaml.string w.wi_id),
   (str "status", Yaml.string w.status),
   (str "project", Yaml.string proj)]
  ++ (match w.priority with
      | some p => if p = 0 then [] else [(str "priority", Yaml.int p)]
      | none => [])
  ++ (match w.assignee with
      | some a => if a.isEmpty then [] else [(str "assignee", Yaml.string a)]
      | none => [])
  ++ (match w.author with
      | some a => if a.isEmpty then [] else [(str "author", Yaml.string a)]
      | none => [])

/-- The header map the parser recovers from a serialized record: every
header-eligible field reproduced, connections in their encoded string form. -/
def expectedHeader (proj : Str) (w : WorkItem) (rels : List Rel) :
    List (Str × Yaml) :=
  [(str "id", Yaml.string (sanitize_id w.wi_id)),
   (str "title", Yaml.string w.title),
   (str "type", Yaml.string (map_wi_type_to_neurona_type w.wi_type)),
   (str "tags", Yaml.list ((buildTags w).map Yaml.string)),
   (str "updated", Yaml.string w.updated),
   (str "context", Yaml.map (expectedContext proj w))]
  ++ (if rels = [] then []
      else [(str "connections", Yaml.list (rels.map fun r => Yaml.string (connStr r)))])

/-- The body the parser recovers: the description (with its joining blank
line when non-empty) followed by the metadata suffix, the final newline
stripped. -/
def expectedBody (proj : Str) (w : WorkItem) : Str :=
  (if w.description.isEmpty then [] else w.description ++ str "\n\n") ++
  metaCore proj w ++ str ")"

/-- Modelled from the spec (§3, CanonicalRecord validity), evaluated on the
canonical record derived from a work item: dot-delimited lower-case id,
non-empty title, canonical type in the closed enumeration, duplicate-free
tags. -/
def specValidCanonical (w : WorkItem) : Bool :=
  !(sanitize_id w.wi_id).isEmpty &&
  hasChar '.' (sanitize_id w.wi_id) &&
  decide (pyLower (sanitize_id w.wi_id) = sanitize_id w.wi_id) &&
  !w.title.isEmpty &&
  decide (map_wi_type_to_neurona_type w.wi_type ∈ specTypeEnum) &&
  decide ((buildTags w).Nodup)

/-! # Theorems -/

/-! ## Character-level helpers -/

theorem toNat_ofNat_valid (n : Nat) (h : n.isValidChar) : (Char.ofNat n).toNat = n := by
  rw [Char.ofNat, dif_pos h]
  rfl

/-- ASCII lower-casing cannot create a hyphen. -/
theorem toLower_eq_dash {a : Char} (h : a.toLower = '-') : a = '-' := by
  rw [Char.toLower] at h
  split at h
  · exfalso
    rename_i hc
    have hv : (a.toNat + 32).isValidChar := by
      have := hc.2
      exact Or.inl (by omega)
    have := congrArg Char.toNat h
    rw [toNat_ofNat_valid _ hv] at this
    have h45 : Char.toNat '-' = 45 := by decide
    rw [h45] at this
    have := hc.1
    omega
  · exact h

theorem isPre_iff (p s : Str) : isPre p s = true ↔ ∃ t, s = p ++ t := by
  induction p generalizing s with
  | nil => simp [isPre]
  | cons a as ih =>
    cases s with
    | nil => simp [isPre]
    | cons b bs =>
      simp only [isPre, Bool.and_eq_true, decide_eq_true_eq, ih, List.cons_append,
        List.cons.injEq]
      constructor
      · rintro ⟨rfl, t, rfl⟩; exact ⟨t, rfl, rfl⟩
      · rintro ⟨t, rfl, rfl⟩; exact ⟨rfl, t, rfl⟩

theorem isPre_append (p s : Str) : isPre p (p ++ s) = true :=
  (isPre_iff p (p ++ s)).2 ⟨s, rfl⟩

theorem containsB_iff (needle s : Str) : containsB needle s = true ↔ Occurs needle s := by
  induction s with
  | nil =>
    simp only [containsB, isPre_iff, Occurs]
    constructor
    · rintro ⟨t, ht⟩
      exact ⟨[], t, by simpa using ht⟩
    · rintro ⟨x, y, hxy⟩
      have hx : x = [] := by
        cases x with
        | nil => rfl
        | cons a as => simp at hxy
      subst hx
      exact ⟨y, by simpa using hxy⟩
  | cons c t ih =>
    simp only [containsB, Bool.or_eq_true, isPre_iff, ih, Occurs]
    constructor
    · rintro (⟨r, hr⟩ | ⟨x, y, hxy⟩)
      · exact ⟨[], r, by simpa using hr⟩
      · exact ⟨c :: x, y, by simp [hxy]⟩
    · rintro ⟨x, y, hxy⟩
      cases x with
      | nil => exact Or.inl ⟨y, by simpa using hxy⟩
      | cons a as =>
        simp only [List.cons_append, List.cons.injEq] at hxy
        exact Or.inr ⟨as, y, hxy.2⟩

theorem splitOnCh_ne_nil (ch : Char) (l : Str) : splitOnCh ch l ≠ [] := by
  cases l with
  | nil => simp [splitOnCh]
  | cons c t =>
    simp only [splitOnCh]
    by_cases hc : c = ch
    · simp [hc]
    · simp only [hc, if_false]
      cases splitOnCh ch t <;> simp

theorem joinDot_cons_cons (c : Char) (h : Str) (r : List Str) :
    joinDot ((c :: h) :: r) = c :: joinDot (h :: r) := by
  cases r with
  | nil => simp [joinDot]
  | cons y s => simp [joinDot]

theorem joinDot_splitOnCh (l : Str) :
    joinDot (splitOnCh '-' l) = l.map (fun c => if c = '-' then '.' else c) := by
  induction l with
  | nil => simp [splitOnCh, joinDot]
  | cons c t ih =>
    by_cases hc : c = '-'
    · subst hc
      cases h : splitOnCh '-' t with
      | nil => exact absurd h (splitOnCh_ne_nil '-' t)
      | cons x r =>
        rw [show splitOnCh '-' ('-' :: t) = [] :: splitOnCh '-' t from by simp [splitOnCh]]
        rw [h, joinDot, ← h, ih]
        simp
    · cases h : splitOnCh '-' t with
      | nil => exact absurd h (splitOnCh_ne_nil '-' t)
      | cons x r =>
        rw [show splitOnCh '-' (c :: t) = (c :: x) :: r from by simp [splitOnCh, hc, h]]
        rw [joinDot_cons_cons, ← h, ih]
        simp [hc]

/-! ## Claim C2: the identifier normalizer -/

/-- C2 counterexample: on `"A-B-C"` the normalizer returns `"a.b.c"`,
not the first-hyphen-only `"a.b-c"` the claim describes. -/
theorem c2_counterexample :
    sanitize_id (str "A-B-C") = str "a.b.c" ∧
    specSanitizeFirst (str "A-B-C") = str "a.b-c" ∧
    sanitize_id (str "A-B-C") ≠ specSanitizeFirst (str "A-B-C") := by
  refine ⟨by decide, by decide, by decide⟩

/-- C2 amended: `sanitize_id` lower-cases its input and replaces **every**
hyphen with a dot (shown against the independent split-at-hyphens /
join-with-dots formulation `specSanitizeAll`); an input without hyphens
passes through lower-cased only, and the function is total. -/
theorem c2_amended (w : Str) :
    sanitize_id w = specSanitizeAll w ∧
    (hasChar '-' w = false → sanitize_id w = pyLower w) := by
  constructor
  · rw [specSanitizeAll, joinDot_splitOnCh, sanitize_id]
  · intro h
    rw [sanitize_id]
    have hnot : '-' ∉ w := by simpa [hasChar] using h
    have hall : ∀ c ∈ pyLower w, c ≠ '-' := by
      intro c hcmem hcontra
      subst hcontra
      rcases List.mem_map.1 hcmem with ⟨a, ha, hlow⟩
      exact hnot (toLower_eq_dash hlow ▸ ha)
    calc (pyLower w).map (fun c => if c = '-' then '.' else c)
        = (pyLower w).map id := List.map_congr_left (fun c hc => by
            simp [hall c hc])
      _ = pyLower w := List.map_id _

/-- C2 amended witness at `"WI-216473"` (and hyphen-free `"wi216473"`). -/
theorem c2_amended_witness :
    sanitize_id (str "WI-216473") = specSanitizeAll (str "WI-216473") ∧
    sanitize_id (str "wi216473") = pyLower (str "wi216473") :=
  ⟨(c2_amended (str "WI-216473")).1, (c2_amended (str "wi216473")).2 (by decide)⟩

/-! ## Claim C4: the three vocabulary maps -/

/-- C4 counterexample: the type map is **not** case-insensitive on its key.
`"Task"` case-insensitively matches the table entry `("task", "task")`, but the
lookup returns the default `"concept"` instead of that entry's value. -/
theorem c4_counterexample :
    ¬ (∀ key : Str, pyLower key = str "task" →
        map_wi_type_to_neurona_type key = str "task") := by
  intro h
  have := h (str "Task") (by decide)
  exact absurd this (by decide)

/-- C4 amended: the status and link-role maps are case-insensitive on the key
(lookup is invariant under case changes) and all three maps are total: every
table entry is returned for its own key, and any key outside the table's key
set (after lower-casing, for the two case-insensitive maps) yields the
documented default (`concept` / `["unknown"]` / `relates_to`).  The type map,
however, is case-sensitive. -/
theorem c4_amended :
    (∀ s t : Str, pyLower s = pyLower t → map_status_to_tags s = map_status_to_tags t) ∧
    (∀ s t : Str, pyLower s = pyLower t →
      map_polarion_link_to_connection_type s = map_polarion_link_to_connection_type t) ∧
    (∀ p ∈ typeTable, map_wi_type_to_neurona_type p.1 = p.2) ∧
    (∀ p ∈ statusTable, map_status_to_tags p.1 = p.2) ∧
    (∀ p ∈ linkTable, map_polarion_link_to_connection_type p.1 = p.2) ∧
    (∀ w : Str, w ∉ typeTable.map Prod.fst →
      map_wi_type_to_neurona_type w = str "concept") ∧
    (∀ s : Str, pyLower s ∉ statusTable.map Prod.fst →
      map_status_to_tags s = [str "unknown"]) ∧
    (∀ r : Str, pyLower r ∉ linkTable.map Prod.fst →
      map_polarion_link_to_connection_type r = str "relates_to") := by
  refine ⟨?_, ?_, by decide, by decide, by decide, ?_, ?_, ?_⟩
  · intro s t h
    simp only [map_status_to_tags, h]
  · intro s t h
    simp only [map_polarion_link_to_connection_type, h]
  · intro w h
    simp only [typeTable, List.map_cons, List.mem_cons, List.map_nil,
      List.mem_singleton, not_or] at h
    obtain ⟨h1, h2, h3, h4, h5, h6, h7, h8, h9⟩ := h
    simp [map_wi_type_to_neurona_type, h1, h2, h3, h4, h5, h6, h7, h8, h9]
  · intro s h
    simp only [statusTable, List.map_cons, List.mem_cons, List.map_nil,
      List.mem_singleton, not_or] at h
    obtain ⟨h1, h2, h3, h4, h5, h6, h7⟩ := h
    simp [map_status_to_tags, h1, h2, h3, h4, h5, h6, h7]
  · intro r h
    simp only [linkTable, List.map_cons, List.mem_cons, List.map_nil,
      List.mem_singleton, not_or] at h
    obtain ⟨h1, h2, h3, h4, h5, h6, h7, h8, h9, h10, h11, h12⟩ := h
    simp [map_polarion_link_to_connection_type,
      h1, h2, h3, h4, h5, h6, h7, h8, h9, h10, h11, h12]

/-- C4 amended witness: case-invariance and defaults at concrete keys. -/
theorem c4_amended_witness :
    map_status_to_tags (str "Approved") = map_status_to_tags (str "approved") ∧
    map_wi_type_to_neurona_type (str "task") = str "task" ∧
    map_wi_type_to_neurona_type (str "widget") = str "concept" ∧
    map_status_to_tags (str "statusX") = [str "unknown"] ∧
    map_polarion_link_to_connection_type (str "roleX") = str "relates_to" :=
  ⟨c4_amended.1 (str "Approved") (str "approved") (by decide),
   c4_amended.2.2.1 (str "task", str "task") (by decide),
   c4_amended.2.2.2.2.2.1 (str "widget") (by decide),
   c4_amended.2.2.2.2.2.2.1 (str "statusX") (by decide),
   c4_amended.2.2.2.2.2.2.2 (str "roleX") (by decide)⟩

/-! ## Tag dedup machinery and claim C8 -/

theorem dedupStep_mem (acc : List Str) (t a : Str) :
    a ∈ dedupStep acc t ↔ a ∈ acc ∨ a = t := by
  rw [dedupStep]
  split
  · rename_i h
    constructor
    · exact Or.inl
    · rintro (ha | rfl)
      · exact ha
      · exact h
  · simp

theorem dedup_foldl_mem (l : List Str) :
    ∀ acc a, (a ∈ l.foldl dedupStep acc ↔ a ∈ acc ∨ a ∈ l) := by
  induction l with
  | nil => simp
  | cons t l ih =>
    intro acc a
    rw [List.foldl_cons, ih, dedupStep_mem]
    simp only [List.mem_cons]
    tauto

theorem dedup_foldl_nodup (l : List Str) :
    ∀ acc : List Str, acc.Nodup → (l.foldl dedupStep acc).Nodup := by
  induction l with
  | nil => intro acc h; simpa using h
  | cons t l ih =>
    intro acc h
    rw [List.foldl_cons]
    apply ih
    rw [dedupStep]
    split
    · exact h
    · rename_i ht
      rw [List.nodup_append]
      exact ⟨h, List.nodup_singleton t, by simpa using ht⟩

theorem dedup_foldl_decomp (l : List Str) :
    ∀ acc : List Str, ∃ s, l.foldl dedupStep acc = acc ++ s ∧ s.Sublist l := by
  induction l with
  | nil => intro acc; exact ⟨[], by simp⟩
  | cons t l ih =>
    intro acc
    rw [List.foldl_cons, dedupStep]
    split
    · obtain ⟨s, hs, hsub⟩ := ih acc
      exact ⟨s, hs, hsub.trans (List.sublist_cons_self t l)⟩
    · obtain ⟨s, hs, hsub⟩ := ih (acc ++ [t])
      exact ⟨t :: s, by simpa using hs, hsub.cons₂ t⟩

theorem firstIdx_append_of_not_mem {a : Str} {l1 : List Str} (l2 : List Str)
    (h : a ∉ l1) : firstIdx a (l1 ++ l2) = l1.length + firstIdx a l2 := by
  induction l1 with
  | nil => simp
  | cons b t ih =>
    have hab : a ≠ b := fun habs => h (habs ▸ List.mem_cons_self b t)
    simp only [List.cons_append, firstIdx, if_neg hab, List.length_cons, List.append_eq]
    rw [ih (fun hmem => h (List.mem_cons_of_mem b hmem))]
    omega

theorem dedup_foldl_pairwise (raw : List Str) :
    ∀ (l acc pre : List Str), raw = pre ++ l →
      (∀ a, a ∈ acc ↔ a ∈ pre) →
      acc.Pairwise (fun a b => firstIdx a raw < firstIdx b raw) →
      (∀ a ∈ acc, firstIdx a raw < pre.length) →
      (l.foldl dedupStep acc).Pairwise (fun a b => firstIdx a raw < firstIdx b raw) := by
  intro l
  induction l with
  | nil => intro acc pre _ _ hpw _; simpa using hpw
  | cons t l ih =>
    intro acc pre hraw hmem hpw hidx
    rw [List.foldl_cons, dedupStep]
    split
    · rename_i ht
      refine ih acc (pre ++ [t]) (by simp [hraw]) ?_ hpw ?_
      · intro a
        rw [hmem]
        constructor
        · intro h; exact List.mem_append_left _ h
        · intro h
          rcases List.mem_append.1 h with h | h
          · exact h
          · rw [List.mem_singleton] at h
            exact (hmem a).1 (h ▸ ht)
      · intro a ha
        have := hidx a ha
        simp only [List.length_append, List.length_singleton]
        omega
    · rename_i ht
      have htpre : t ∉ pre := fun h => ht ((hmem t).2 h)
      have hidxt : firstIdx t raw = pre.length := by
        rw [hraw, firstIdx_append_of_not_mem _ htpre]
        simp [firstIdx]
      refine ih (acc ++ [t]) (pre ++ [t]) (by simp [hraw]) ?_ ?_ ?_
      · intro a
        simp only [List.mem_append, List.mem_singleton, hmem]
      · rw [List.pairwise_append]
        refine ⟨hpw, List.pairwise_singleton _ _, ?_⟩
        intro a ha b hb
        rw [List.mem_singleton] at hb
        subst hb
        rw [hidxt]
        exact hidx a ha
      · intro a ha
        simp only [List.length_append, List.length_singleton]
        rcases List.mem_append.1 ha with h | h
        · have := hidx a h; omega
        · rw [List.mem_singleton] at h
          subst h
          omega

/-- C8: the converted tag list contains no duplicates, is a subsequence of
the raw tag concatenation (provenance tag, raw type, status tags, inferred
keyword tags - so it is never re-sorted), covers exactly the raw tags, and
its order is the order of first occurrence in that concatenation. -/
theorem c8_tags_dedup (w : WorkItem) :
    (buildTags w).Nodup ∧
    (buildTags w).Sublist (rawTagList w) ∧
    (∀ a, a ∈ buildTags w ↔ a ∈ rawTagList w) ∧
    (buildTags w).Pairwise
      (fun a b => firstIdx a (rawTagList w) < firstIdx b (rawTagList w)) := by
  refine ⟨dedup_foldl_nodup _ [] List.nodup_nil, ?_, ?_, ?_⟩
  · obtain ⟨s, hs, hsub⟩ := dedup_foldl_decomp (rawTagList w) []
    rw [buildTags, dedupFromKeys, hs]
    simpa using hsub
  · intro a
    rw [buildTags, dedupFromKeys, dedup_foldl_mem]
    simp
  · exact dedup_foldl_pairwise (rawTagList w) (rawTagList w) [] [] rfl
      (by simp) (by simp) (by simp)

/-! ## Claim C9: provenance tag first, raw type second -/

/-- C9 counterexample: when the raw source type is itself `"polarion"`, the
dedup removes it and the second tag is not the raw type. -/
theorem c9_counterexample :
    buildTags ⟨str "WI-1", str "polarion", str "x", [], str "unknown",
        str "u", none, none, none⟩ = [str "polarion", str "unknown"] ∧
    (buildTags ⟨str "WI-1", str "polarion", str "x", [], str "unknown",
        str "u", none, none, none⟩).get? 1 ≠
      some (WorkItem.wi_type ⟨str "WI-1", str "polarion", str "x", [],
        str "unknown", str "u", none, none, none⟩) := by
  refine ⟨by decide, by decide⟩

/-- C9 amended: the produced tag list always starts with the provenance tag
`"polarion"`, the raw source type follows as the second element whenever it
differs from `"polarion"`, and the list is never empty - so its decoded
header value is truthy and the Tier-1 empty-`tags` check cannot fire on a
produced document. -/
theorem c9_amended (w : WorkItem) :
    (buildTags w).head? = some (str "polarion") ∧
    (w.wi_type ≠ str "polarion" → (buildTags w).get? 1 = some w.wi_type) ∧
    buildTags w ≠ [] ∧
    pyTruthy (Yaml.list ((buildTags w).map Yaml.string)) = true := by
  have hq : buildTags w =
      List.foldl dedupStep (dedupStep (dedupStep [] (str "polarion")) w.wi_type)
        (map_status_to_tags w.status ++
          inferKeywordTags (pyLower (w.title ++ str " " ++ w.description))) := rfl
  have hd0 : dedupStep [] (str "polarion") = [str "polarion"] := by
    rw [dedupStep]
    simp
  by_cases hwt : w.wi_type = str "polarion"
  · have hd1 : dedupStep [str "polarion"] w.wi_type = [str "polarion"] := by
      rw [dedupStep, if_pos (by simp [hwt])]
    obtain ⟨s, hs, _⟩ := dedup_foldl_decomp
      (map_status_to_tags w.status ++
        inferKeywordTags (pyLower (w.title ++ str " " ++ w.description)))
      [str "polarion"]
    have hbt : buildTags w = [str "polarion"] ++ s := by rw [hq, hd0, hd1, hs]
    refine ⟨by simp [hbt], fun hne => absurd hwt hne, by simp [hbt],
      by simp [hbt, pyTruthy]⟩
  · have hd1 : dedupStep [str "polarion"] w.wi_type = [str "polarion", w.wi_type] := by
      rw [dedupStep, if_neg (by simp [hwt])]
      rfl
    obtain ⟨s, hs, _⟩ := dedup_foldl_decomp
      (map_status_to_tags w.status ++
        inferKeywordTags (pyLower (w.title ++ str " " ++ w.description)))
      [str "polarion", w.wi_type]
    have hbt : buildTags w = [str "polarion", w.wi_type] ++ s := by
      rw [hq, hd0, hd1, hs]
    refine ⟨by simp [hbt], fun _ => ?_, by simp [hbt], by simp [hbt, pyTruthy]⟩
    rw [hbt]
    rfl

/-- C9 amended witness at a concrete work item with raw type `"task"`. -/
theorem c9_amended_witness :
    (buildTags ⟨str "WI-2", str "task", str "t", [], str "open",
        str "u", none, none, none⟩).get? 1 = some (str "task") :=
  (c9_amended ⟨str "WI-2", str "task", str "t", [], str "open",
    str "u", none, none, none⟩).2.1 (by decide)

/-! ## Claim C3: relationship target extraction -/

/-- C3 counterexample: for the reference `"x/wi-63850"` the claim's
case-insensitive scan would match the segment `"wi-63850"` (prefix `"WI-"` up
to case) and normalize it to `"wi.63850"`; the extractor instead matches
nothing (its prefix tests are case-sensitive) and emits the raw reference
unchanged - not even normalized. -/
theorem c3_counterexample :
    extract_relationships [⟨some (str "x/wi-63850"), none⟩] =
      [⟨str "x/wi-63850", str "relates_to", 80⟩] ∧
    sanitize_id (str "wi-63850") = str "wi.63850" ∧
    (str "x/wi-63850" : Str) ≠ str "wi.63850" ∧
    (str "x/wi-63850" : Str) ≠ sanitize_id (str "x/wi-63850") := by
  refine ⟨by decide, by decide, by decide, by decide⟩

/-- C3 amended: each emitted edge's target comes from `cleanLinkId`: a
reference without a slash is normalized whole; with a slash, the segments are
scanned from the end backward for the first one whose prefix is *literally*
`"wi."`, `"WI-"` or `"WI."` (case-sensitive) and that segment is normalized;
when no segment matches, the raw reference is kept **unchanged** (not
normalized). -/
theorem c3_amended :
    (∀ (lid : Str) (role : Str), extract_relationships [⟨some lid, some role⟩] =
      if lid = [] then []
      else [⟨cleanLinkId lid, map_polarion_link_to_connection_type role, 80⟩]) ∧
    (∀ lid : Str, hasChar '/' lid = false → cleanLinkId lid = sanitize_id lid) ∧
    (∀ lid : Str, hasChar '/' lid = true →
      (∀ p ∈ splitOnCh '/' lid, wiSegMatch p = false) → cleanLinkId lid = lid) ∧
    (∀ (lid p : Str), hasChar '/' lid = true →
      (splitOnCh '/' lid).reverse.find? wiSegMatch = some p →
      cleanLinkId lid = sanitize_id p) := by
  refine ⟨?_, ?_, ?_, ?_⟩
  · intro lid role
    simp only [extract_relationships, List.filterMap, Option.getD]
    split
    · rename_i h
      simp_all
    · rename_i h
      simp_all
  · intro lid h
    rw [cleanLinkId, if_neg (by simp [h])]
  · intro lid h hall
    rw [cleanLinkId, if_pos h]
    have : (splitOnCh '/' lid).reverse.find? wiSegMatch = none := by
      rw [List.find?_eq_none]
      intro p hp
      simp [hall p (List.mem_reverse.1 hp)]
    rw [this]
  · intro lid p h hfind
    rw [cleanLinkId, if_pos h, hfind]

/-- C3 amended witness: the no-slash, no-match and backward-scan cases at
concrete references. -/
theorem c3_amended_witness :
    extract_relationships [⟨some (str "WI-100"), some (str "depends_on")⟩] =
      [⟨cleanLinkId (str "WI-100"), map_polarion_link_to_connection_type
        (str "depends_on"), 80⟩] ∧
    cleanLinkId (str "WI-100") = sanitize_id (str "WI-100") ∧
    cleanLinkId (str "a/b") = str "a/b" ∧
    cleanLinkId (str "p/wi.216473/parent/q/wi.63850") = sanitize_id (str "wi.63850") := by
  refine ⟨?_, c3_amended.2.1 (str "WI-100") (by decide), ?_, ?_⟩
  · have := c3_amended.1 (str "WI-100") (str "depends_on")
    rwa [if_neg (by decide)] at this
  · exact c3_amended.2.2.1 (str "a/b") (by decide) (by decide)
  · exact c3_amended.2.2.2 (str "p/wi.216473/parent/q/wi.63850") (str "wi.63850")
      (by decide) (by decide)

/-! ## Claim C1: the Tier-2 type enumeration -/

/-- C1 counterexample: `"task"` is a canonical type the type map produces,
the spec's closed enumeration contains it, yet the Tier-2 check reports an
issue for it; conversely `"reference"` is outside the spec's enumeration yet
produces no issue. -/
theorem c1_counterexample :
    map_wi_type_to_neurona_type (str "task") = str "task" ∧
    (str "task" : Str) ∈ specTypeEnum ∧
    validate_tier2 [(str "type", Yaml.string (str "task"))] =
      [Issue.invalidType (Yaml.string (str "task"))] ∧
    (str "reference" : Str) ∉ specTypeEnum ∧
    validate_tier2 [(str "type", Yaml.string (str "reference"))] = [] := by
  refine ⟨by decide, by decide, rfl, by decide, rfl⟩

/-- C1 amended: the Tier-2 check reports an issue for `type` iff its value is
not one of the validator's own nine-string list `valid_types` (`concept`,
`reference`, `artifact`, `state_machine`, `lesson`, `requirement`,
`test_case`, `issue`, `feature`); every canonical type the type map can
produce except `task` passes, while `task` - a map output - is flagged. -/
theorem c1_amended :
    (∀ (fm : List (Str × Yaml)) (v : Yaml), findKey (str "type") fm = some v →
      (Issue.invalidType v ∈ validate_tier2 fm ↔ yamlInStrList v valid_types = false)) ∧
    (∀ wt : Str, map_wi_type_to_neurona_type wt = str "task" ∨
      yamlInStrList (Yaml.string (map_wi_type_to_neurona_type wt)) valid_types = true) ∧
    validate_tier2 [(str "type", Yaml.string (str "task"))] =
      [Issue.invalidType (Yaml.string (str "task"))] := by
  refine ⟨?_, ?_, rfl⟩
  · intro fm v h
    have hB : Issue.invalidType v ∉
        (match findKey (str "updated") fm with
         | some u => if isYStr u then [] else [Issue.updatedNotString u]
         | none => ([] : List Issue)) := by
      rcases findKey (str "updated") fm with _ | u
      · simp
      · split <;> simp
    have hC : Issue.invalidType v ∉
        (match findKey (str "language") fm with
         | some u =>
           (match u with
            | Yaml.string s => if s.length = 2 then [] else [Issue.languageBad u]
            | _ => [Issue.languageBad u])
         | none => ([] : List Issue)) := by
      rcases findKey (str "language") fm with _ | u
      · simp
      · rcases u <;> simp <;> split <;> simp
    simp only [validate_tier2, h]
    constructor
    · intro hmem
      rcases List.mem_append.1 hmem with hmem | hmem
      · rcases List.mem_append.1 hmem with hmem | hmem
        · by_contra hfalse
          rw [Bool.not_eq_false] at hfalse
          rw [if_pos hfalse] at hmem
          simp at hmem
        · exact absurd hmem hB
      · exact absurd hmem hC
    · intro hfalse
      rw [if_neg (by simp [hfalse])]
      simp
  · intro wt
    unfold map_wi_type_to_neurona_type
    repeat' split
    all_goals first
      | exact Or.inl (by decide)
      | exact Or.inr (by decide)

/-- C1 amended witness at the header `{type: "artifact"}`. -/
theorem c1_amended_witness :
    Issue.invalidType (Yaml.string (str "artifact")) ∈
        validate_tier2 [(str "type", Yaml.string (str "artifact"))] ↔
      yamlInStrList (Yaml.string (str "artifact")) valid_types = false :=
  c1_amended.1 [(str "type", Yaml.string (str "artifact"))]
    (Yaml.string (str "artifact")) rfl

/-! ## Claim C7: totality of the tier validators -/

/-- C7 counterexample: both crash points named by the claim are real.  A
non-string `id` makes Tier 1 evaluate `"." not in 7` (a `TypeError`), and a
non-numeric `_llm.d` makes Tier 3 evaluate `1 <= "high"` (a `TypeError`). -/
theorem c7_counterexample :
    validate_tier1 [(str "id", Yaml.int 7), (str "title", Yaml.string (str "t")),
      (str "tags", Yaml.list [Yaml.string (str "x")])] = .error .typeError ∧
    validate_tier3 [(str "_llm", Yaml.map [(str "d", Yaml.string (str "high"))])] =
      .error .typeError := by
  exact ⟨rfl, rfl⟩

/-- C7 amended: Tier 2 is a total function (it is modelled without an error
monad because no operation in it can raise); Tier 1 returns an issue list
whenever the `id` value, if present, is a string, list or dict; Tier 3
returns an issue list whenever the `_llm.d` value, if reachable, is an int
or a bool.  Outside these shapes the dot-membership and range comparisons
raise `TypeError`, as the counterexample shows. -/
theorem c7_amended (fm : List (Str × Yaml)) :
    ((∀ v, findKey (str "id") fm = some v →
        (isYStr v || isYList v || isYMap v) = true) →
      ∃ issues, validate_tier1 fm = .ok issues) ∧
    ((∀ m dv, findKey (str "_llm") fm = some (Yaml.map m) →
        findKey (str "d") m = some dv →
        (match dv with
         | Yaml.int _ => true
         | Yaml.bool _ => true
         | _ => false) = true) →
      ∃ issues, validate_tier3 fm = .ok issues) := by
  constructor
  · intro h
    rcases hid : findKey (str "id") fm with _ | v
    · exact ⟨_, by simp only [validate_tier1, hid]; rfl⟩
    · have hv := h v hid
      rcases v with _ | b | n | s | l | m <;> simp [isYStr, isYList, isYMap] at hv
      all_goals exact ⟨_, by simp only [validate_tier1, hid]; rfl⟩
  · intro h
    rcases hllm : findKey (str "_llm") fm with _ | llm
    · exact ⟨_, by simp only [validate_tier3, hllm]; rfl⟩
    · rcases llm with _ | b | n | s | l | m
      case map =>
        rcases hd : findKey (str "d") m with _ | dv
        · exact ⟨_, by simp only [validate_tier3, hllm, hd]; rfl⟩
        · have hdv := h m dv hllm hd
          rcases dv with _ | b2 | n2 | s2 | l2 | m2 <;> simp at hdv
          all_goals exact ⟨_, by simp only [validate_tier3, hllm, hd]; rfl⟩
      all_goals exact ⟨_, by simp only [validate_tier3, hllm]; rfl⟩

/-- C7 amended witness at a well-shaped header. -/
theorem c7_amended_witness :
    (∃ issues, validate_tier1 [(str "id", Yaml.string (str "a.b"))] = .ok issues) ∧
    (∃ issues, validate_tier3 [(str "_llm", Yaml.map [(str "d", Yaml.int 2)])]
      = .ok issues) :=
  ⟨(c7_amended [(str "id", Yaml.string (str "a.b"))]).1
      (fun v hv => by cases hv; rfl),
   (c7_amended [(str "_llm", Yaml.map [(str "d", Yaml.int 2)])]).2
      (fun m dv hm hd => by cases hm; cases hd; rfl)⟩

/-! ## Claim C10: truthiness-based omission of optional fields -/

/-- C10: the serializer tests `priority`, `assignee` and `author` for Python
truthiness, not presence: a priority of 0 and empty assignee/author strings
produce the *identical* document to absent fields - the lines are omitted
from both the header context block and the body metadata section. -/
theorem c10_truthiness_omission (proj : Str) (w : WorkItem) (rels : List Rel) :
    convert_to_neurona proj
        { w with priority := some 0, assignee := some [], author := some [] } rels =
      convert_to_neurona proj
        { w with priority := none, assignee := none, author := none } rels := by
  simp [convert_to_neurona, headerLines, contextLines, ctxSubLines, metaCore,
    metaText, buildTags, rawTagList, List.isEmpty]

/-! ## Claim C6: the verdict policy -/

/-- C6: for every parseable document whose validation completes, the verdict
is non-compliant iff the Tier-1 issue list is non-empty (regardless of
Tier 2/3); the returned success boolean is true iff Tier 1 is clean; with
Tier 1 clean but Tier 2 or 3 issues the verdict is compliant-with-warnings
(still a success); with all three lists empty it is fully compliant. -/
theorem c6_verdict (doc : Str) (fm : List (Str × Yaml)) (body : Str)
    (hload : load_neurona doc = .ok (fm, body))
    (res : VerdictResult) (hrun : runValidation fm = .ok res) :
    (res.verdict = Verdict.nonCompliant ↔ res.t1 ≠ []) ∧
    (res.success = true ↔ res.t1 = []) ∧
    (res.t1 = [] → (res.t2 ≠ [] ∨ res.t3 ≠ []) →
      res.verdict = Verdict.compliantWithWarnings ∧ res.success = true) ∧
    (res.t1 = [] → res.t2 = [] → res.t3 = [] →
      res.verdict = Verdict.fullyCompliant) := by
  clear hload
  rcases h1 : validate_tier1 fm with e1 | t1
  · rw [runValidation] at hrun
    rw [h1] at hrun
    exact absurd hrun (by simp [Bind.bind, Except.bind])
  rcases h3 : validate_tier3 fm with e3 | t3
  · rw [runValidation] at hrun
    rw [h1, h3] at hrun
    exact absurd hrun (by simp [Bind.bind, Except.bind])
  rw [runValidation] at hrun
  rw [h1, h3] at hrun
  simp only [Bind.bind, Except.bind, Pure.pure, Except.pure] at hrun
  split at hrun
  · rename_i hall
    injection hrun with heq
    subst heq
    rw [List.isEmpty_iff, List.append_eq_nil, List.append_eq_nil] at hall
    obtain ⟨⟨ht1, ht2⟩, ht3⟩ := hall
    simp [ht1, ht2, ht3]
  · rename_i hall
    split at hrun
    · rename_i ht1
      injection hrun with heq
      subst heq
      have ht1x : t1 ≠ [] := by
        cases t1
        · simp at ht1
        · simp
      simp [ht1x]
    · rename_i ht1
      injection hrun with heq
      subst heq
      have ht1x : t1 = [] := by
        cases t1
        · rfl
        · simp at ht1
      refine ⟨by simp [ht1x], by simp [ht1x], fun _ _ => ⟨rfl, rfl⟩, ?_⟩
      intro _ h2 h3x
      exfalso
      apply hall
      simp only at h2 h3x
      simp [ht1x, h2, h3x]

/-- C6 witness: a concrete parseable, fully compliant document. -/
theorem c6_verdict_witness :
    (Verdict.fullyCompliant = Verdict.nonCompliant ↔ ([] : List Issue) ≠ []) ∧
    ((true = true) ↔ ([] : List Issue) = []) ∧
    (([] : List Issue) = [] → (([] : List Issue) ≠ [] ∨ ([] : List Issue) ≠ []) →
      Verdict.fullyCompliant = Verdict.compliantWithWarnings ∧ true = true) ∧
    (([] : List Issue) = [] → ([] : List Issue) = [] → ([] : List Issue) = [] →
      Verdict.fullyCompliant = Verdict.fullyCompliant) :=
  c6_verdict (str "---\nid: a.b\ntitle: T\ntags: [\"x\"]\n---\n\nBody")
    [(str "id", Yaml.string (str "a.b")), (str "title", Yaml.string (str "T")),
     (str "tags", Yaml.list [Yaml.string (str "x")])]
    (str "Body") rfl ⟨[], [], [], Verdict.fullyCompliant, true⟩ rfl

/-! ## Decimal scalars round-trip through the loader -/

theorem digitChar_toNat (d : Nat) (h : d < 10) : (digitChar d).toNat = 48 + d :=
  toNat_ofNat_valid _ (Or.inl (by omega))

theorem natToStrAux_spec :
    ∀ fuel n, n < fuel →
      natToStrAux fuel n ≠ [] ∧ (∀ c ∈ natToStrAux fuel n, isDigitN c = true) ∧
      strToNat (natToStrAux fuel n) = n := by
  intro fuel
  induction fuel with
  | zero => intro n h; omega
  | succ fuel ih =>
    intro n h
    rw [natToStrAux]
    by_cases h10 : n < 10
    · rw [if_pos h10]
      refine ⟨by simp, ?_, ?_⟩
      · intro c hc
        rw [List.mem_singleton] at hc
        subst hc
        simp only [isDigitN, digitChar_toNat n h10, Bool.and_eq_true, decide_eq_true_eq]
        omega
      · simp [strToNat, digitChar_toNat n h10]
    · rw [if_neg h10]
      have hdiv : n / 10 < fuel := by
        have := Nat.div_lt_self (show 0 < n by omega) (show 1 < 10 by omega)
        omega
      obtain ⟨hne, hdig, hval⟩ := ih (n / 10) hdiv
      have hm : n % 10 < 10 := Nat.mod_lt n (by omega)
      refine ⟨by simp, ?_, ?_⟩
      · intro c hc
        rcases List.mem_append.1 hc with hc | hc
        · exact hdig c hc
        · rw [List.mem_singleton] at hc
          subst hc
          simp only [isDigitN, digitChar_toNat _ hm, Bool.and_eq_true, decide_eq_true_eq]
          omega
      · rw [strToNat, List.foldl_append]
        simp only [List.foldl_cons, List.foldl_nil]
        rw [show List.foldl (fun a c => a * 10 + (c.toNat - 48)) 0 (natToStrAux fuel (n / 10))
            = strToNat (natToStrAux fuel (n / 10)) from rfl]
        rw [hval, digitChar_toNat _ hm]
        have := Nat.div_add_mod n 10
        omega

theorem natToStr_spec (n : Nat) :
    natToStr n ≠ [] ∧ (∀ c ∈ natToStr n, isDigitN c = true) ∧
      strToNat (natToStr n) = n :=
  natToStrAux_spec (n + 1) n (by omega)

theorem isDigitN_ne_signs {c : Char} (hc : isDigitN c = true) :
    c ≠ '+' ∧ c ≠ '-' ∧ c ≠ '"' ∧ c ≠ '[' := by
  refine ⟨?_, ?_, ?_, ?_⟩ <;> rintro rfl <;> simp [isDigitN] at hc

theorem digit_headed_not_word {s : Str} (hne : s ≠ [])
    (hdig : ∀ c ∈ s, isDigitN c = true) :
    s ∉ boolTrueWords ∧ s ∉ boolFalseWords ∧ s ∉ nullWords := by
  refine ⟨?_, ?_, ?_⟩ <;> intro hmem <;> fin_cases hmem <;>
    simp_all [isDigitN, str]

theorem isDecInt_of_digits {s : Str} (hne : s ≠ [])
    (hdig : ∀ c ∈ s, isDigitN c = true) : isDecInt s = true := by
  cases s with
  | nil => exact absurd rfl hne
  | cons c t =>
    have hc := hdig c (List.mem_cons_self c t)
    obtain ⟨hp, hm, _, _⟩ := isDigitN_ne_signs hc
    rw [isDecInt, if_neg (by simp [hp, hm])]
    simp only [isDecDigits, Bool.and_eq_true, List.all_eq_true]
    exact ⟨by simp, hdig⟩

theorem decToInt_of_digits {s : Str} (hne : s ≠ [])
    (hdig : ∀ c ∈ s, isDigitN c = true) : decToInt s = (strToNat s : Int) := by
  cases s with
  | nil => exact absurd rfl hne
  | cons c t =>
    have hc := hdig c (List.mem_cons_self c t)
    obtain ⟨hp, hm, _, _⟩ := isDigitN_ne_signs hc
    rw [decToInt, if_neg hm, if_neg hp]

/-- The loader decodes a rendered natural number back to its value. -/
theorem resolve_natToStr (p : Nat) : resolvePlain (natToStr p) = Yaml.int p := by
  obtain ⟨hne, hdig, hval⟩ := natToStr_spec p
  obtain ⟨hw1, hw2, hw3⟩ := digit_headed_not_word hne hdig
  rw [resolvePlain, if_neg (by simpa using hw1), if_neg (by simpa using hw2),
    if_neg (by simp [List.isEmpty_iff, hne, hw3]),
    if_pos (isDecInt_of_digits hne hdig), decToInt_of_digits hne hdig, hval]

/-- A rendered natural number is a safe quoted/JSON payload. -/
theorem quotedSafe_natToStr (p : Nat) : quotedSafe (natToStr p) = true := by
  obtain ⟨_, hdig, _⟩ := natToStr_spec p
  simp only [quotedSafe, List.all_eq_true]
  intro c hc
  have hd := hdig c hc
  simp only [isDigitN, Bool.and_eq_true, decide_eq_true_eq] at hd
  simp only [quotedSafeChar, asciiPrintable, Bool.and_eq_true, decide_eq_true_eq, ne_eq]
  refine ⟨⟨⟨by omega, by omega⟩, ?_⟩, ?_⟩ <;>
    · rintro rfl
      exact absurd hd (by decide)

/-! ## Plain scalars that resolve to themselves -/

theorem plainSafe_shape {s : Str} (h : plainSafe s = true) :
    ∃ c t, s = c :: t ∧ isAlphaN c = true ∧ (∀ d ∈ s, plainChar d = true) ∧
      s ∉ boolTrueWords ∧ s ∉ boolFalseWords ∧ s ∉ nullWords := by
  cases s with
  | nil => simp [plainSafe] at h
  | cons c t =>
    simp only [plainSafe, Bool.and_eq_true, decide_eq_true_eq, List.all_eq_true] at h
    exact ⟨c, t, rfl, h.1.1.1.1.1, h.1.1.1.1.2, h.1.1.2, h.1.2, h.2⟩

theorem isAlphaN_not_special {c : Char} (hc : isAlphaN c = true) :
    isDigitN c = false ∧ c ≠ '+' ∧ c ≠ '-' ∧ c ≠ '"' ∧ c ≠ '[' := by
  simp only [isAlphaN, Bool.or_eq_true, Bool.and_eq_true, decide_eq_true_eq] at hc
  refine ⟨?_, ?_, ?_, ?_, ?_⟩
  · rw [Bool.eq_false_iff]
    intro habs
    simp only [isDigitN, Bool.and_eq_true, decide_eq_true_eq] at habs
    rcases hc with ⟨h1, h2⟩ | ⟨h1, h2⟩ <;> omega
  all_goals rintro rfl
  all_goals revert hc
  all_goals decide

/-- A `plainSafe` scalar resolves to itself as a string. -/
theorem resolve_plainSafe {s : Str} (h : plainSafe s = true) :
    resolvePlain s = Yaml.string s := by
  obtain ⟨c, t, rfl, hca, hpc, hw1, hw2, hw3⟩ := plainSafe_shape h
  rw [resolvePlain, if_neg (by simpa using hw1), if_neg (by simpa using hw2),
    if_neg (by simp [hw3]), if_neg ?hdec]
  case hdec =>
    obtain ⟨hcd, hp, hm, _, _⟩ := isAlphaN_not_special hca
    rw [isDecInt, if_neg (by simp [hp, hm])]
    simp [isDecDigits, hcd]

/-! ## Quoted scalars and flow sequences -/

theorem quotedSafe_no_quote {s : Str} (h : quotedSafe s = true) :
    ∀ c ∈ s, c ≠ '"' ∧ c ≠ '\\' := by
  simp only [quotedSafe, List.all_eq_true] at h
  intro c hc
  have := h c hc
  simp only [quotedSafeChar, Bool.and_eq_true, decide_eq_true_eq, ne_eq] at this
  exact ⟨this.1.2, this.2⟩

theorem scanQuote_append {t : Str} (r : Str) (h : ∀ c ∈ t, c ≠ '"') :
    scanQuote (t ++ '"' :: r) = some (t, r) := by
  induction t with
  | nil => simp [scanQuote]
  | cons c t ih =>
    have hc : c ≠ '"' := h c (List.mem_cons_self c t)
    rw [List.cons_append, scanQuote, if_neg hc,
      ih (fun d hd => h d (List.mem_cons_of_mem c hd))]
    rfl

theorem parseFlowItemsF_render (ts : List Str) :
    ∀ fuel, (joinSep (str ", ") (ts.map fun t => '"' :: t ++ str "\"") ++ [']']).length ≤ fuel →
      (∀ t ∈ ts, quotedSafe t = true) →
      parseFlowItemsF fuel
          (joinSep (str ", ") (ts.map fun t => '"' :: t ++ str "\"") ++ [']'])
        = some (ts.map Yaml.string) := by
  induction ts with
  | nil =>
    intro fuel _ _
    cases fuel <;> rfl
  | cons t ts ih =>
    intro fuel hlen hsafe
    have hq : ∀ c ∈ t, c ≠ '"' :=
      fun c hc => (quotedSafe_no_quote (hsafe t (by simp)) c hc).1
    cases ts with
    | nil =>
      cases fuel with
      | zero =>
        exfalso
        simp [joinSep] at hlen
      | succ fuel =>
        have hshape :
            joinSep (str ", ") ([t].map fun x => '"' :: x ++ str "\"") ++ [']']
              = '"' :: (t ++ '"' :: [']']) := by
          simp [joinSep, str]
        rw [hshape, parseFlowItemsF]
        rw [scanQuote_append [']'] hq]
        rfl
    | cons t2 ts2 =>
      cases fuel with
      | zero =>
        exfalso
        simp [joinSep] at hlen
      | succ fuel =>
        have hshape :
            joinSep (str ", ") ((t :: t2 :: ts2).map fun x => '"' :: x ++ str "\"") ++ [']']
              = '"' :: (t ++ '"' :: ',' :: ' ' ::
                  (joinSep (str ", ") ((t2 :: ts2).map fun x => '"' :: x ++ str "\"") ++ [']'])) := by
          simp only [List.map_cons]
          rw [joinSep]
          simp [str]
        rw [hshape] at hlen ⊢
        rw [parseFlowItemsF]
        rw [scanQuote_append (',' :: ' ' ::
          (joinSep (str ", ") ((t2 :: ts2).map fun x => '"' :: x ++ str "\"") ++ [']'])) hq]
        have hlen2 :
            (joinSep (str ", ") ((t2 :: ts2).map fun x => '"' :: x ++ str "\"") ++ [']']).length
              ≤ fuel := by
          simp only [List.length_cons, List.length_append] at hlen ⊢
          omega
        have hrec := ih fuel hlen2 (fun x hx => hsafe x (List.mem_cons_of_mem t hx))
        show (parseFlowItemsF fuel
            (joinSep (str ", ") ((t2 :: ts2).map fun x => '"' :: x ++ str "\"")
              ++ [']'])).map (Yaml.string t :: ·)
          = some ((t :: t2 :: ts2).map Yaml.string)
        rw [hrec]
        rfl

theorem parseValue_plain {s : Str} (h : plainSafe s = true) :
    parseValue s = some (Yaml.string s) := by
  obtain ⟨c, t, rfl, hca, _, _, _, _⟩ := plainSafe_shape h
  obtain ⟨_, _, _, hq, hb⟩ := isAlphaN_not_special hca
  rw [parseValue, if_neg hq, if_neg hb, resolve_plainSafe h]

theorem parseValue_quoted {u : Str} (h : quotedSafe u = true) :
    parseValue ('"' :: (u ++ str "\"")) = some (Yaml.string u) := by
  rw [parseValue, if_pos rfl]
  rw [show (u ++ str "\"") = u ++ '"' :: [] from rfl]
  rw [scanQuote_append [] (fun c hc => (quotedSafe_no_quote h c hc).1)]

theorem parseValue_intNat (p : Nat) :
    parseValue (natToStr p) = some (Yaml.int p) := by
  obtain ⟨hne, hdig, _⟩ := natToStr_spec p
  cases hs : natToStr p with
  | nil => exact absurd hs hne
  | cons c t =>
    have hc : isDigitN c = true := hdig c (hs ▸ List.mem_cons_self c t)
    obtain ⟨_, _, hq, hb⟩ := isDigitN_ne_signs hc
    rw [parseValue, if_neg hq, if_neg hb, ← hs, resolve_natToStr]

theorem parseValue_flow {ts : List Str} (h : ∀ t ∈ ts, quotedSafe t = true) :
    parseValue (jsonDumpsList ts) = some (Yaml.list (ts.map Yaml.string)) := by
  have hshape : jsonDumpsList ts
      = '[' :: (joinSep (str ", ") (ts.map fun t => '"' :: t ++ str "\"") ++ [']']) := by
    simp [jsonDumpsList, str]
  rw [hshape, parseValue, if_neg (by decide), if_pos rfl]
  rw [parseFlowItems, parseFlowItemsF_render ts _ (le_refl _) h]
  rfl

/-! ## Splitting a document at the frontmatter delimiters -/

theorem splitOnce_self_append (a : Char) (as X : Str) :
    splitOnce (a :: as) ((a :: as) ++ X) = some ([], X) := by
  rw [List.cons_append, splitOnce, if_pos]
  · simp [List.drop_succ_cons, List.drop_left]
  · rw [← List.cons_append]
    exact isPre_append (a :: as) X

theorem splitOnce_delim_self (X : Str) :
    splitOnce delim (delim ++ X) = some ([], X) :=
  splitOnce_self_append '-' (str "--\n") X

theorem occurs_cons (a : Char) {n l : Str} (h : Occurs n l) : Occurs n (a :: l) := by
  obtain ⟨x, y, rfl⟩ := h
  exact ⟨a :: x, y, rfl⟩

/-- An occurrence of `"---\n"` in `A ++ "---"` forces one inside `A`: the
appended dashes contain no newline and the delimiter cannot straddle. -/
theorem not_occurs_delim_extend {A : Str} (h : ¬ Occurs delim A) :
    ¬ Occurs delim (A ++ str "---") := by
  rintro ⟨x, y, hxy⟩
  have hrev := congrArg List.reverse hxy
  have h3 : (str "---").reverse = '-' :: '-' :: '-' :: [] := by decide
  have hd : delim.reverse = '\n' :: '-' :: '-' :: '-' :: [] := by decide
  simp only [List.reverse_append] at hrev
  rw [h3, hd] at hrev
  simp only [List.cons_append, List.nil_append] at hrev
  rcases hy : y.reverse with _ | ⟨a1, _ | ⟨a2, _ | ⟨a3, z⟩⟩⟩ <;> rw [hy] at hrev
  · simp at hrev
  · simp only [List.cons_append, List.nil_append, List.cons.injEq] at hrev
    exact absurd hrev.2.1 (by decide)
  · simp only [List.cons_append, List.nil_append, List.cons.injEq] at hrev
    exact absurd hrev.2.2.1 (by decide)
  · simp only [List.cons_append, List.cons.injEq] at hrev
    obtain ⟨_, _, _, hA⟩ := hrev
    apply h
    refine ⟨x, z.reverse, ?_⟩
    rw [← List.reverse_inj]
    rw [hA]
    simp only [List.reverse_append, List.reverse_reverse, hd]
    simp

theorem splitOnce_delim_mid :
    ∀ (A B : Str), ¬ Occurs delim (A ++ str "---") →
      splitOnce delim (A ++ delim ++ B) = some (A, B) := by
  intro A
  induction A with
  | nil =>
    intro B _
    simp only [List.nil_append]
    exact splitOnce_delim_self B
  | cons a A ih =>
    intro B hocc
    have hstep : ¬ isPre delim (a :: (A ++ delim ++ B)) = true := by
      intro hpre
      obtain ⟨t, ht⟩ := (isPre_iff _ _).1 hpre
      apply hocc
      have hlen4 : 4 ≤ ((a :: A) ++ str "---").length := by
        simp [str]
      have htake : (a :: (A ++ delim ++ B)).take 4 = delim := by
        rw [ht]
        exact List.take_left' (by decide)
      have hsplit : a :: (A ++ delim ++ B)
          = ((a :: A) ++ str "---") ++ ('\n' :: B) := by
        simp [delim, str]
      rw [hsplit, List.take_append_eq_append_take,
        Nat.sub_eq_zero_of_le hlen4, List.take_zero, List.append_nil] at htake
      exact ⟨[], ((a :: A) ++ str "---").drop 4, by
        rw [List.nil_append, ← htake, List.take_append_drop]⟩
    rw [show (a :: A) ++ delim ++ B = a :: (A ++ delim ++ B) from by simp]
    rw [splitOnce, if_neg hstep,
      ih B (fun hoc => hocc (occurs_cons a hoc))]
    rfl

/-- `content.split("---\n", 2)` on an emitted document: empty prefix, the
header text, and the newline-led remainder kept verbatim. -/
theorem pySplit2_document (H REST : Str) (h : ¬ Occurs delim H) :
    pySplit2 delim (delim ++ (H ++ (delim ++ ('\n' :: REST))))
      = [[], H, '\n' :: REST] := by
  have h2 := not_occurs_delim_extend h
  simp only [pySplit2, splitOnce_delim_self]
  rw [show H ++ (delim ++ ('\n' :: REST)) = H ++ delim ++ ('\n' :: REST) from by simp]
  rw [splitOnce_delim_mid H _ h2]

/-! ## Recovering the header lines and stripping the body -/

theorem splitOnCh_line {l : Str} (rest : Str) (h : ∀ c ∈ l, c ≠ '\n') :
    splitOnCh '\n' (l ++ '\n' :: rest) = l :: splitOnCh '\n' rest := by
  induction l with
  | nil => simp [splitOnCh]
  | cons c t ih =>
    have hc : c ≠ '\n' := h c (List.mem_cons_self c t)
    rw [List.cons_append, splitOnCh, if_neg hc,
      ih (fun d hd => h d (List.mem_cons_of_mem c hd))]

theorem splitOnCh_unlines (ls : List Str) (h : ∀ l ∈ ls, ∀ c ∈ l, c ≠ '\n') :
    splitOnCh '\n' (unlines ls) = ls ++ [[]] := by
  induction ls with
  | nil => rfl
  | cons l ls ih =>
    rw [show unlines (l :: ls) = l ++ '\n' :: unlines ls from rfl]
    rw [splitOnCh_line _ (h l (List.mem_cons_self l ls)),
      ih (fun l2 h2 => h l2 (List.mem_cons_of_mem l h2))]
    rfl

theorem lstrip_cons_ws (c : Char) (s : Str) (h : isPyWS c = true) :
    lstrip (c :: s) = lstrip s := by
  simp [lstrip, List.dropWhile_cons, h]

theorem lstrip_cons_not (c : Char) (s : Str) (h : isPyWS c = false) :
    lstrip (c :: s) = c :: s := by
  simp [lstrip, List.dropWhile_cons, h]

theorem rstrip_close (Y : Str) : rstrip (Y ++ str ")\n") = Y ++ str ")" := by
  rw [rstrip]
  rw [show (Y ++ str ")\n").reverse = '\n' :: ')' :: Y.reverse from by
    simp [str]]
  rw [List.dropWhile_cons, if_pos (by decide), List.dropWhile_cons,
    if_neg (by decide)]
  simp [str]

/-! ## Parsing the emitted block mapping -/

theorem parseSubLines_cons (line : Str) (rest : List Str) (k v : Str) (y : Yaml)
    (hind : isPre (str "  ") line = true)
    (hkv : splitKV (line.drop 2) = some (k, v))
    (hval : parseValue v = some y) :
    parseSubLines (line :: rest) = (parseSubLines rest).map ((k, y) :: ·) := by
  simp only [parseSubLines, hind, if_true, hkv, hval, Option.pure_def,
    Option.bind_eq_bind, Option.some_bind]
  cases parseSubLines rest <;> rfl

theorem parseSubLines_append (A B : List Str) :
    parseSubLines (A ++ B)
      = (parseSubLines A).bind fun a => (parseSubLines B).map (a ++ ·) := by
  induction A with
  | nil =>
    simp only [List.nil_append, parseSubLines]
    cases parseSubLines B <;> simp
  | cons line A ih =>
    rw [List.cons_append]
    by_cases hind : isPre (str "  ") line
    · cases hkv : splitKV (line.drop 2) with
      | none => simp [parseSubLines, hind, hkv]
      | some p =>
        obtain ⟨k, v⟩ := p
        cases hval : parseValue v with
        | none => simp [parseSubLines, hind, hkv, hval]
        | some y =>
          simp only [parseSubLines, hind, if_true, hkv, hval, Option.pure_def,
            Option.bind_eq_bind, Option.some_bind, ih]
          cases parseSubLines A <;> cases parseSubLines B <;> simp
    · simp [parseSubLines, hind]

theorem parseLinesF_nil (fuel : Nat) : parseLinesF fuel [] = some [] := by
  cases fuel <;> rfl

theorem parseLinesF_step_kv (fuel : Nat) (line : Str) (rest : List Str)
    (k v : Str) (y : Yaml)
    (hne : line.isEmpty = false)
    (hind : isPre (str "  ") line = false)
    (hkv : splitKV line = some (k, v))
    (hval : parseValue v = some y) :
    parseLinesF (fuel + 1) (line :: rest)
      = (parseLinesF fuel rest).map ((k, y) :: ·) := by
  simp only [parseLinesF, hne, hind, hkv, hval, Bool.false_eq_true, if_false,
    Option.pure_def, Option.bind_eq_bind, Option.some_bind]
  cases parseLinesF fuel rest <;> rfl

theorem parseLinesF_step_ctx (fuel : Nat) (line : Str) (rest sub tail : List Str)
    (pairs : List (Str × Yaml))
    (hne : line.isEmpty = false)
    (hind : isPre (str "  ") line = false)
    (hkv : splitKV line = none)
    (hlast : line.getLast? = some ':')
    (htake : rest.takeWhile (fun l => isPre (str "  ") l) = sub)
    (hdrop : rest.dropWhile (fun l => isPre (str "  ") l) = tail)
    (hsub : parseSubLines sub = some pairs) :
    parseLinesF (fuel + 1) (line :: rest)
      = (parseLinesF fuel tail).map ((line.dropLast, Yaml.map pairs) :: ·) := by
  simp only [parseLinesF, hne, hind, hkv, hlast, htake, hdrop, hsub,
    Bool.false_eq_true, if_false, if_pos, Option.pure_def, Option.bind_eq_bind,
    Option.some_bind]
  cases parseLinesF fuel tail <;> rfl

theorem parseLinesF_step_empty (fuel : Nat) (rest : List Str) :
    parseLinesF (fuel + 1) ([] :: rest) = parseLinesF fuel rest := rfl

theorem parseLinesF_mono :
    ∀ (n : Nat) (ls : List Str), ls.length ≤ n →
      ∀ f1 f2, ls.length ≤ f1 → ls.length ≤ f2 →
        parseLinesF f1 ls = parseLinesF f2 ls := by
  intro n
  induction n with
  | zero =>
    intro ls h f1 f2 _ _
    have hnil : ls = [] := List.length_eq_zero.1 (Nat.le_zero.1 h)
    subst hnil
    rw [parseLinesF_nil, parseLinesF_nil]
  | succ n ih =>
    intro ls hlen f1 f2 h1 h2
    cases ls with
    | nil => rw [parseLinesF_nil, parseLinesF_nil]
    | cons line rest =>
      simp only [List.length_cons] at hlen h1 h2
      cases f1 with
      | zero => omega
      | succ g1 =>
        cases f2 with
        | zero => omega
        | succ g2 =>
          have hrest : rest.length ≤ n := by omega
          have hg1 : rest.length ≤ g1 := by omega
          have hg2 : rest.length ≤ g2 := by omega
          by_cases hne : line.isEmpty
          · simp only [parseLinesF, hne, if_true]
            exact ih rest hrest g1 g2 hg1 hg2
          · rw [Bool.not_eq_true] at hne
            by_cases hind : isPre (str "  ") line
            · simp [parseLinesF, hne, hind]
            · rw [Bool.not_eq_true] at hind
              cases hkv : splitKV line with
              | some p =>
                obtain ⟨k, v⟩ := p
                simp only [parseLinesF, hne, hind, hkv, Bool.false_eq_true,
                  if_false, Option.pure_def, Option.bind_eq_bind]
                simp only [ih rest hrest g1 g2 hg1 hg2]
              | none =>
                by_cases hlast : line.getLast? = some ':'
                · simp only [parseLinesF, hne, hind, hkv, hlast,
                    Bool.false_eq_true, if_false, if_pos, Option.pure_def,
                    Option.bind_eq_bind]
                  have hdl : (rest.dropWhile (fun l => isPre (str "  ") l)).length
                      ≤ rest.length := (List.dropWhile_sublist _).length_le
                  rw [ih (rest.dropWhile (fun l => isPre (str "  ") l))
                    (le_trans hdl hrest) g1 g2 (le_trans hdl hg1) (le_trans hdl hg2)]
                · simp [parseLinesF, hne, hind, hkv, hlast]

/-! ## Parsing the emitted context block -/

theorem psl_fixed4 (proj : Str) (w : WorkItem)
    (hoid : quotedSafe w.wi_id = true) (hst : quotedSafe w.status = true)
    (hpr : quotedSafe proj = true) :
    parseSubLines
      [str "  source: \"polarion\"",
       (str "  original_id: \"") ++ w.wi_id ++ str "\"",
       (str "  status: \"") ++ w.status ++ str "\"",
       (str "  project: \"") ++ proj ++ str "\""]
    = some [(str "source", Yaml.string (str "polarion")),
            (str "original_id", Yaml.string w.wi_id),
            (str "status", Yaml.string w.status),
            (str "project", Yaml.string proj)] := by
  rw [parseSubLines_cons (str "  source: \"polarion\"") _ (str "source")
    (str "\"polarion\"") (Yaml.string (str "polarion")) rfl rfl rfl]
  rw [parseSubLines_cons ((str "  original_id: \"") ++ w.wi_id ++ str "\"") _
    (str "original_id") ('"' :: (w.wi_id ++ str "\"")) (Yaml.string w.wi_id)
    rfl rfl (parseValue_quoted hoid)]
  rw [parseSubLines_cons ((str "  status: \"") ++ w.status ++ str "\"") _
    (str "status") ('"' :: (w.status ++ str "\"")) (Yaml.string w.status)
    rfl rfl (parseValue_quoted hst)]
  rw [parseSubLines_cons ((str "  project: \"") ++ proj ++ str "\"") _
    (str "project") ('"' :: (proj ++ str "\"")) (Yaml.string proj)
    rfl rfl (parseValue_quoted hpr)]
  rfl

theorem psl_priority (w : WorkItem) :
    parseSubLines (match w.priority with
      | some p => if p = 0 then [] else [(str "  priority: ") ++ natToStr p]
      | none => [])
    = some (match w.priority with
      | some p => if p = 0 then [] else [(str "priority", Yaml.int p)]
      | none => []) := by
  rcases w.priority with _ | p
  · rfl
  · show parseSubLines (if p = 0 then [] else [(str "  priority: ") ++ natToStr p])
      = some (if p = 0 then [] else [(str "priority", Yaml.int p)])
    by_cases hp : p = 0
    · simp [hp, parseSubLines]
    · rw [if_neg hp, if_neg hp]
      rw [parseSubLines_cons ((str "  priority: ") ++ natToStr p) [] (str "priority")
        (natToStr p) (Yaml.int p) rfl rfl (parseValue_intNat p)]
      rfl

theorem psl_assignee (w : WorkItem)
    (h : match w.assignee with | some a => quotedSafe a = true | none => True) :
    parseSubLines (match w.assignee with
      | some a => if a.isEmpty then [] else [(str "  assignee: \"") ++ a ++ str "\""]
      | none => [])
    = some (match w.assignee with
      | some a => if a.isEmpty then [] else [(str "assignee", Yaml.string a)]
      | none => []) := by
  rcases ha : w.assignee with _ | a
  · rfl
  · rw [ha] at h
    show parseSubLines (if a.isEmpty then []
        else [(str "  assignee: \"") ++ a ++ str "\""])
      = some (if a.isEmpty then [] else [(str "assignee", Yaml.string a)])
    by_cases hae : a.isEmpty
    · simp [hae, parseSubLines]
    · rw [Bool.not_eq_true] at hae
      rw [if_neg (by simp [hae]), if_neg (by simp [hae])]
      rw [parseSubLines_cons ((str "  assignee: \"") ++ a ++ str "\"") []
        (str "assignee") ('"' :: (a ++ str "\"")) (Yaml.string a)
        rfl rfl (parseValue_quoted h)]
      rfl

theorem psl_author (w : WorkItem)
    (h : match w.author with | some a => quotedSafe a = true | none => True) :
    parseSubLines (match w.author with
      | some a => if a.isEmpty then [] else [(str "  author: \"") ++ a ++ str "\""]
      | none => [])
    = some (match w.author with
      | some a => if a.isEmpty then [] else [(str "author", Yaml.string a)]
      | none => []) := by
  rcases ha : w.author with _ | a
  · rfl
  · rw [ha] at h
    show parseSubLines (if a.isEmpty then []
        else [(str "  author: \"") ++ a ++ str "\""])
      = some (if a.isEmpty then [] else [(str "author", Yaml.string a)])
    by_cases hae : a.isEmpty
    · simp [hae, parseSubLines]
    · rw [Bool.not_eq_true] at hae
      rw [if_neg (by simp [hae]), if_neg (by simp [hae])]
      rw [parseSubLines_cons ((str "  author: \"") ++ a ++ str "\"") []
        (str "author") ('"' :: (a ++ str "\"")) (Yaml.string a)
        rfl rfl (parseValue_quoted h)]
      rfl

/-- The full context block parses to the expected context map. -/
theorem psl_ctx (proj : Str) (w : WorkItem)
    (hoid : quotedSafe w.wi_id = true) (hst : quotedSafe w.status = true)
    (hpr : quotedSafe proj = true)
    (hassg : match w.assignee with | some a => quotedSafe a = true | none => True)
    (hauth : match w.author with | some a => quotedSafe a = true | none => True) :
    parseSubLines (ctxSubLines proj w) = some (expectedContext proj w) := by
  rw [ctxSubLines, parseSubLines_append, parseSubLines_append, parseSubLines_append]
  rw [psl_fixed4 proj w hoid hst hpr, psl_priority w, psl_assignee w hassg,
    psl_author w hauth]
  rw [expectedContext]
  rfl

/-! ## Remaining safety facts for the header lines -/

theorem plainSafe_type (wt : Str) :
    plainSafe (map_wi_type_to_neurona_type wt) = true := by
  unfold map_wi_type_to_neurona_type
  repeat' split
  all_goals decide

theorem quotedSafe_append (a b : Str) :
    quotedSafe (a ++ b) = (quotedSafe a && quotedSafe b) := by
  simp [quotedSafe, List.all_append]

theorem quotedSafe_connStr {r : Rel} (ht : quotedSafe r.target_id = true)
    (hc : quotedSafe r.connection_type = true) :
    quotedSafe (connStr r) = true := by
  rw [connStr]
  rw [show r.connection_type ++ ':' :: r.target_id ++ ':' :: natToStr r.weight
      = r.connection_type ++ ([':'] ++ r.target_id) ++ ([':'] ++ natToStr r.weight)
    from by simp]
  simp only [quotedSafe_append, hc, ht, quotedSafe_natToStr, Bool.true_and, Bool.and_true]
  decide

theorem ctxSubLines_indented (proj : Str) (w : WorkItem) :
    ∀ l ∈ ctxSubLines proj w, isPre (str "  ") l = true := by
  obtain ⟨wid, wt, ti, de, st, up, pr, asg, au⟩ := w
  intro l hl
  rw [ctxSubLines] at hl
  rcases List.mem_append.1 hl with hl | hl
  · rcases List.mem_append.1 hl with hl | hl
    · rcases List.mem_append.1 hl with hl | hl
      · simp only [List.mem_cons, List.not_mem_nil, or_false] at hl
        rcases hl with rfl | rfl | rfl | rfl <;> rfl
      · rcases pr with _ | p
        · simp at hl
        · simp only at hl
          by_cases hp : p = 0
          · rw [if_pos hp] at hl; simp at hl
          · rw [if_neg hp] at hl
            rw [List.mem_singleton] at hl
            subst hl
            rfl
    · rcases asg with _ | a
      · simp at hl
      · simp only at hl
        by_cases ha : a.isEmpty
        · rw [if_pos ha] at hl; simp at hl
        · rw [if_neg ha] at hl
          rw [List.mem_singleton] at hl
          subst hl
          rfl
  · rcases au with _ | a
    · simp at hl
    · simp only at hl
      by_cases ha : a.isEmpty
      · rw [if_pos ha] at hl; simp at hl
      · rw [if_neg ha] at hl
        rw [List.mem_singleton] at hl
        subst hl
        rfl

/-- Stepping the parser over the five leading `key: value` lines of the
frontmatter prepends the five recovered pairs to the parse of the rest. -/
theorem parseKV5 (w : WorkItem)
    (hid : plainSafe (sanitize_id w.wi_id) = true)
    (htitle : plainSafe w.title = true)
    (hupd : quotedSafe w.updated = true)
    (htags : ∀ t ∈ buildTags w, quotedSafe t = true)
    (g : Nat) (R : List Str) (P : List (Str × Yaml))
    (hR : parseLinesF g R = some P) :
    parseLinesF (((((g + 1) + 1) + 1) + 1) + 1)
      (((str "id: ") ++ sanitize_id w.wi_id)
        :: ((str "title: ") ++ w.title)
        :: ((str "type: ") ++ map_wi_type_to_neurona_type w.wi_type)
        :: ((str "tags: ") ++ jsonDumpsList (buildTags w))
        :: ((str "updated: \"") ++ w.updated ++ str "\"") :: R)
      = some ((str "id", Yaml.string (sanitize_id w.wi_id))
          :: (str "title", Yaml.string w.title)
          :: (str "type", Yaml.string (map_wi_type_to_neurona_type w.wi_type))
          :: (str "tags", Yaml.list ((buildTags w).map Yaml.string))
          :: (str "updated", Yaml.string w.updated) :: P) := by
  rw [parseLinesF_step_kv ((((g + 1) + 1) + 1) + 1)
      ((str "id: ") ++ sanitize_id w.wi_id) _ (str "id") (sanitize_id w.wi_id)
      (Yaml.string (sanitize_id w.wi_id)) rfl rfl rfl (parseValue_plain hid)]
  rw [parseLinesF_step_kv (((g + 1) + 1) + 1)
      ((str "title: ") ++ w.title) _ (str "title") w.title
      (Yaml.string w.title) rfl rfl rfl (parseValue_plain htitle)]
  rw [parseLinesF_step_kv ((g + 1) + 1)
      ((str "type: ") ++ map_wi_type_to_neurona_type w.wi_type) _ (str "type")
      (map_wi_type_to_neurona_type w.wi_type)
      (Yaml.string (map_wi_type_to_neurona_type w.wi_type)) rfl rfl rfl
      (parseValue_plain (plainSafe_type w.wi_type))]
  rw [parseLinesF_step_kv (g + 1)
      ((str "tags: ") ++ jsonDumpsList (buildTags w)) _ (str "tags")
      (jsonDumpsList (buildTags w)) (Yaml.list ((buildTags w).map Yaml.string))
      rfl rfl rfl (parseValue_flow htags)]
  rw [parseLinesF_step_kv g
      ((str "updated: \"") ++ w.updated ++ str "\"") _ (str "updated")
      ('"' :: (w.updated ++ str "\"")) (Yaml.string w.updated) rfl rfl rfl
      (parseValue_quoted hupd)]
  rw [hR]
  rfl

/-- Stepping the parser over the `context:` line consumes the whole indented
block and prepends the recovered context map. -/
theorem parseCtxStep (proj : Str) (w : WorkItem)
    (hoid : quotedSafe w.wi_id = true) (hst : quotedSafe w.status = true)
    (hpr : quotedSafe proj = true)
    (hassg : match w.assignee with | some a => quotedSafe a = true | none => True)
    (hauth : match w.author with | some a => quotedSafe a = true | none => True)
    (g : Nat) (TAIL : List Str) (P : List (Str × Yaml))
    (htk : List.takeWhile (fun l => isPre (str "  ") l) (ctxSubLines proj w ++ TAIL)
      = ctxSubLines proj w)
    (hdr : List.dropWhile (fun l => isPre (str "  ") l) (ctxSubLines proj w ++ TAIL)
      = TAIL)
    (hT : parseLinesF g TAIL = some P) :
    parseLinesF (g + 1) ((str "context:") :: (ctxSubLines proj w ++ TAIL))
      = some ((str "context", Yaml.map (expectedContext proj w)) :: P) := by
  rw [parseLinesF_step_ctx g (str "context:") (ctxSubLines proj w ++ TAIL)
      (ctxSubLines proj w) TAIL (expectedContext proj w) rfl rfl rfl rfl htk hdr
      (psl_ctx proj w hoid hst hpr hassg hauth), hT]
  rfl

/-- The parser recovers exactly the expected header pairs from the serialized
frontmatter lines (followed by the empty line the delimiter split leaves),
for any fuel at least the number of lines. -/
theorem parseHeaderLines (proj : Str) (w : WorkItem) (rels : List Rel)
    (hid : plainSafe (sanitize_id w.wi_id) = true)
    (htitle : plainSafe w.title = true)
    (hupd : quotedSafe w.updated = true)
    (hoid : quotedSafe w.wi_id = true)
    (hst : quotedSafe w.status = true)
    (hpr : quotedSafe proj = true)
    (htags : ∀ t ∈ buildTags w, quotedSafe t = true)
    (hassg : match w.assignee with | some a => quotedSafe a = true | none => True)
    (hauth : match w.author with | some a => quotedSafe a = true | none => True)
    (hconn : ∀ r ∈ rels, quotedSafe r.target_id = true ∧ quotedSafe r.connection_type = true)
    (fuel : Nat) (hfuel : (headerLines proj w rels ++ [[]]).length ≤ fuel) :
    parseLinesF fuel (headerLines proj w rels ++ [[]])
      = some (expectedHeader proj w rels) := by
  have hJn : ¬ ((fun l => isPre (str "  ") l) ([] : Str) = true) := by decide
  by_cases hrels : rels = []
  · subst hrels
    have hlen : 7 ≤ fuel := by
      simp [headerLines, contextLines] at hfuel
      omega
    obtain ⟨g, rfl⟩ : ∃ g, fuel = ((((((g + 1) + 1) + 1) + 1) + 1) + 1) + 1 :=
      ⟨fuel - 7, by omega⟩
    have htk : List.takeWhile (fun l => isPre (str "  ") l)
        (ctxSubLines proj w ++ [([] : Str)]) = ctxSubLines proj w := by
      rw [List.takeWhile_append_of_pos (ctxSubLines_indented proj w),
        List.takeWhile_cons_of_neg hJn, List.append_nil]
    have hdr : List.dropWhile (fun l => isPre (str "  ") l)
        (ctxSubLines proj w ++ [([] : Str)]) = [([] : Str)] := by
      rw [List.dropWhile_append_of_pos (ctxSubLines_indented proj w),
        List.dropWhile_cons_of_neg hJn]
    have hT : parseLinesF (g + 1) [([] : Str)] = some [] := by
      rw [parseLinesF_step_empty, parseLinesF_nil]
    have hctx := parseCtxStep proj w hoid hst hpr hassg hauth (g + 1)
      [([] : Str)] [] htk hdr hT
    have hmain := parseKV5 w hid htitle hupd htags ((g + 1) + 1) _ _ hctx
    have hlist : headerLines proj w [] ++ [[]]
        = ((str "id: ") ++ sanitize_id w.wi_id)
          :: ((str "title: ") ++ w.title)
          :: ((str "type: ") ++ map_wi_type_to_neurona_type w.wi_type)
          :: ((str "tags: ") ++ jsonDumpsList (buildTags w))
          :: ((str "updated: \"") ++ w.updated ++ str "\"")
          :: (str "context:") :: (ctxSubLines proj w ++ [([] : Str)]) := by
      simp [headerLines, contextLines]
    rw [hlist, hmain]
    simp [expectedHeader]
  · have hlen : 8 ≤ fuel := by
      simp [headerLines, contextLines, hrels] at hfuel
      omega
    obtain ⟨g, rfl⟩ : ∃ g, fuel = (((((((g + 1) + 1) + 1) + 1) + 1) + 1) + 1) + 1 :=
      ⟨fuel - 8, by omega⟩
    have hJ : jsonDumpsList (rels.map connStr)
        = (str "[") ++ joinSep (str ", ")
            (rels.map fun r => '"' :: connStr r ++ str "\"") ++ str "]" := by
      rw [jsonDumpsList, List.map_map]
      rfl
    have hcs : ∀ t ∈ rels.map connStr, quotedSafe t = true := by
      intro t ht
      obtain ⟨r, hr, rfl⟩ := List.mem_map.1 ht
      exact quotedSafe_connStr (hconn r hr).1 (hconn r hr).2
    have hvalE : parseValue (jsonDumpsList (rels.map connStr))
        = some (Yaml.list (rels.map fun r => Yaml.string (connStr r))) := by
      rw [parseValue_flow hcs, List.map_map]
      rfl
    have hkvE : splitKV ((str "connections: [") ++ joinSep (str ", ")
          (rels.map fun r => '"' :: connStr r ++ str "\"") ++ str "]")
        = some (str "connections", jsonDumpsList (rels.map connStr)) := by
      rw [hJ]
      rfl
    have hfmt : format_connections_yaml rels
        = (str "connections: [") ++ joinSep (str ", ")
            (rels.map fun r => '"' :: connStr r ++ str "\"") ++ str "]" := by
      rw [format_connections_yaml, if_neg hrels]
    have hEn : ¬ ((fun l => isPre (str "  ") l)
        ((str "connections: [") ++ joinSep (str ", ")
          (rels.map fun r => '"' :: connStr r ++ str "\"") ++ str "]") = true) := by
      have h0 : isPre (str "  ") ((str "connections: [") ++ joinSep (str ", ")
          (rels.map fun r => '"' :: connStr r ++ str "\"") ++ str "]") = false := rfl
      simp only [h0]
      exact Bool.false_ne_true
    have htk : List.takeWhile (fun l => isPre (str "  ") l)
        (ctxSubLines proj w ++
          [(str "connections: [") ++ joinSep (str ", ")
            (rels.map fun r => '"' :: connStr r ++ str "\"") ++ str "]", ([] : Str)])
        = ctxSubLines proj w := by
      rw [List.takeWhile_append_of_pos (ctxSubLines_indented proj w),
        List.takeWhile_cons_of_neg hEn, List.append_nil]
    have hdr : List.dropWhile (fun l => isPre (str "  ") l)
        (ctxSubLines proj w ++
          [(str "connections: [") ++ joinSep (str ", ")
            (rels.map fun r => '"' :: connStr r ++ str "\"") ++ str "]", ([] : Str)])
        = [(str "connections: [") ++ joinSep (str ", ")
            (rels.map fun r => '"' :: connStr r ++ str "\"") ++ str "]", ([] : Str)] := by
      rw [List.dropWhile_append_of_pos (ctxSubLines_indented proj w),
        List.dropWhile_cons_of_neg hEn]
    have hT0 : parseLinesF (g + 1) [([] : Str)] = some [] := by
      rw [parseLinesF_step_empty, parseLinesF_nil]
    have hTc : parseLinesF ((g + 1) + 1)
        [(str "connections: [") ++ joinSep (str ", ")
          (rels.map fun r => '"' :: connStr r ++ str "\"") ++ str "]", ([] : Str)]
        = some [(str "connections",
            Yaml.list (rels.map fun r => Yaml.string (connStr r)))] := by
      rw [parseLinesF_step_kv (g + 1)
          ((str "connections: [") ++ joinSep (str ", ")
            (rels.map fun r => '"' :: connStr r ++ str "\"") ++ str "]")
          [([] : Str)] (str "connections") (jsonDumpsList (rels.map connStr))
          (Yaml.list (rels.map fun r => Yaml.string (connStr r))) rfl rfl hkvE hvalE,
        hT0]
      rfl
    have hctx := parseCtxStep proj w hoid hst hpr hassg hauth ((g + 1) + 1)
      _ _ htk hdr hTc
    have hmain := parseKV5 w hid htitle hupd htags (((g + 1) + 1) + 1) _ _ hctx
    have hlist : headerLines proj w rels ++ [[]]
        = ((str "id: ") ++ sanitize_id w.wi_id)
          :: ((str "title: ") ++ w.title)
          :: ((str "type: ") ++ map_wi_type_to_neurona_type w.wi_type)
          :: ((str "tags: ") ++ jsonDumpsList (buildTags w))
          :: ((str "updated: \"") ++ w.updated ++ str "\"")
          :: (str "context:")
          :: (ctxSubLines proj w ++
            [(str "connections: [") ++ joinSep (str ", ")
              (rels.map fun r => '"' :: connStr r ++ str "\"") ++ str "]", ([] : Str)]) := by
      simp [headerLines, contextLines, hrels, hfmt]
    rw [hlist, hmain]
    simp [expectedHeader, hrels]

/-- A string whose head survives `lstrip` keeps surviving after extension on
the right. -/
theorem lstrip_append_nonws (A B : Str) (h : lstrip A = A)
    (hne : A.isEmpty = false) : lstrip (A ++ B) = A ++ B := by
  cases A with
  | nil => simp at hne
  | cons a as =>
    by_cases hw : isPyWS a = true
    · exfalso
      have hlen := congrArg List.length h
      rw [lstrip, List.dropWhile_cons_of_pos hw] at hlen
      have h2 : (List.dropWhile isPyWS as).length ≤ as.length :=
        (List.dropWhile_sublist _).length_le
      simp only [List.length_cons] at hlen
      omega
    · rw [List.cons_append, lstrip, List.dropWhile_cons_of_neg hw]

/-- A non-empty string stays non-empty after extension on the right. -/
theorem isEmpty_append_left (A B : Str) (h : A.isEmpty = false) :
    (A ++ B).isEmpty = false := by
  cases A with
  | nil => simp at h
  | cons a as => rfl

set_option maxHeartbeats 2000000 in
/-- The metadata section never starts with whitespace, so `str.strip` leaves
it alone on the left. -/
theorem lstrip_metaText (proj : Str) (w : WorkItem) :
    lstrip (metaText proj w) = metaText proj w := by
  obtain ⟨T, hT⟩ : ∃ T, metaText proj w = '#' :: T := ⟨_, rfl⟩
  rw [hT, lstrip_cons_not '#' T (by decide)]

/-- C5 (amended): for every work-item record and relationship list inside the
YAML-safe fragment the serializer targets (`c5SafeB`: plain scalars resolve to
themselves, quoted scalars contain no quote/backslash, the description does
not start with whitespace, no header line holds a newline and the header
holds no delimiter), loading the serialized document succeeds, the parsed
header reproduces exactly the header-eligible fields (id, title, type, tags,
updated, context, connections), and the parsed body is the description
followed by the metadata suffix with the final newline stripped. -/
theorem c5_amended (proj : Str) (w : WorkItem) (rels : List Rel)
    (h : c5SafeB proj w rels = true) :
    load_neurona (convert_to_neurona proj w rels)
      = .ok (expectedHeader proj w rels, expectedBody proj w) := by
  rw [c5SafeB] at h
  simp only [Bool.and_eq_true] at h
  obtain ⟨⟨⟨⟨⟨⟨⟨⟨⟨⟨⟨⟨hid, htitle⟩, hupd⟩, hoid⟩, hst⟩, hpr⟩, htagsB⟩, hassgB⟩,
    hauthB⟩, hconnB⟩, hdescB⟩, hnlB⟩, hcontB⟩ := h
  have htags : ∀ t ∈ buildTags w, quotedSafe t = true := fun t ht =>
    List.all_eq_true.1 htagsB t ht
  have hassg : match w.assignee with | some a => quotedSafe a = true | none => True := by
    rcases ha : w.assignee with _ | a
    · simp only [ha]
    · simp only [ha] at hassgB ⊢
      exact hassgB
  have hauth : match w.author with | some a => quotedSafe a = true | none => True := by
    rcases ha : w.author with _ | a
    · simp only [ha]
    · simp only [ha] at hauthB ⊢
      exact hauthB
  have hconn : ∀ r ∈ rels,
      quotedSafe r.target_id = true ∧ quotedSafe r.connection_type = true := by
    intro r hr
    have h2 := List.all_eq_true.1 hconnB r hr
    simpa [Bool.and_eq_true] using h2
  have hnl : ∀ l ∈ headerLines proj w rels, ∀ c ∈ l, c ≠ '\n' := by
    intro l hl c hc heq
    have h2 := List.all_eq_true.1 hnlB l hl
    simp only [hasChar, Bool.not_eq_true', decide_eq_false_iff_not] at h2
    exact h2 (heq ▸ hc)
  have hnocc : ¬ Occurs delim (unlines (headerLines proj w rels)) := by
    intro hocc
    have h2 := (containsB_iff delim (unlines (headerLines proj w rels))).2 hocc
    rw [h2] at hcontB
    simp at hcontB
  have hyaml : yamlParseHeader (unlines (headerLines proj w rels))
      = some (expectedHeader proj w rels) := by
    rw [yamlParseHeader, splitOnCh_unlines _ hnl, parseLines]
    exact parseHeaderLines proj w rels hid htitle hupd hoid hst hpr htags hassg
      hauth hconn _ (le_refl _)
  have hbody : pyStrip ('\n' :: ((if w.description.isEmpty then []
        else w.description ++ str "\n\n") ++ metaText proj w))
      = expectedBody proj w := by
    rcases hD : w.description with _ | ⟨c, d⟩
    · rw [expectedBody, hD]
      simp only [List.isEmpty_nil, if_true, List.nil_append]
      rw [pyStrip, lstrip_cons_ws '\n' _ (by decide), lstrip_metaText,
        metaText, rstrip_close]
    · have hc : isPyWS c = false := by
        simp only [hD, Bool.not_eq_true'] at hdescB
        exact hdescB
      rw [expectedBody, hD]
      simp only [List.isEmpty_cons, Bool.false_eq_true, if_false]
      rw [pyStrip, lstrip_cons_ws '\n' _ (by decide)]
      rw [show ((c :: d) ++ str "\n\n") ++ metaText proj w
          = c :: ((d ++ str "\n\n") ++ metaText proj w) from by simp]
      rw [lstrip_cons_not c _ hc]
      rw [show c :: ((d ++ str "\n\n") ++ metaText proj w)
          = (c :: ((d ++ str "\n\n") ++ metaCore proj w)) ++ str ")\n" from by
        rw [metaText]; simp]
      rw [rstrip_close]
      simp
  have hform : convert_to_neurona proj w rels
      = delim ++ (unlines (headerLines proj w rels)
          ++ (delim ++ ('\n' :: ((if w.description.isEmpty then []
                else w.description ++ str "\n\n") ++ metaText proj w)))) := by
    rw [convert_to_neurona]
    simp [delim, str]
  rw [hform, load_neurona, if_pos (isPre_append delim _)]
  rw [pySplit2_document _ _ hnocc]
  simp only [hyaml, hbody]

set_option maxHeartbeats 4000000 in
set_option maxRecDepth 8000 in
/-- C5 counterexample: the spec-valid record with id `WI-1`, type `task` and
title `"0"` serializes to a document whose parsed header holds the YAML
integer `0` under `title`, not the original string `"0"`: the exact
reproduction claimed for every valid record fails. -/
theorem c5_counterexample :
    specValidCanonical ⟨str "WI-1", str "task", str "0", str "Body text.",
        str "open", str "2024-01-01", none, none, none⟩ = true ∧
    (match load_neurona (convert_to_neurona (str "projX")
        ⟨str "WI-1", str "task", str "0", str "Body text.",
          str "open", str "2024-01-01", none, none, none⟩ []) with
      | .ok (pairs, _) => findKey (str "title") pairs
      | .error _ => none) = some (Yaml.int 0) ∧
    Yaml.int 0 ≠ Yaml.string (str "0") := by
  refine ⟨by decide, rfl, by simp⟩

set_option maxHeartbeats 4000000 in
set_option maxRecDepth 8000 in
/-- Witness for the amended C5: a concrete YAML-safe record with priority,
assignee and one relationship round-trips to exactly the expected header
pairs and body. -/
theorem c5_amended_witness :
    c5SafeB (str "projX")
      ⟨str "wi.216473", str "requirement", str "Sample item",
        str "Hello world.", str "approved", str "2024-01-01T00:00:00Z",
        some 3, some (str "jdoe"), none⟩
      [⟨str "wi.63850", str "parent", 80⟩] = true ∧
    load_neurona (convert_to_neurona (str "projX")
      ⟨str "wi.216473", str "requirement", str "Sample item",
        str "Hello world.", str "approved", str "2024-01-01T00:00:00Z",
        some 3, some (str "jdoe"), none⟩
      [⟨str "wi.63850", str "parent", 80⟩])
      = .ok (expectedHeader (str "projX")
          ⟨str "wi.216473", str "requirement", str "Sample item",
            str "Hello world.", str "approved", str "2024-01-01T00:00:00Z",
            some 3, some (str "jdoe"), none⟩
          [⟨str "wi.63850", str "parent", 80⟩],
        expectedBody (str "projX")
          ⟨str "wi.216473", str "requirement", str "Sample item",
            str "Hello world.", str "approved", str "2024-01-01T00:00:00Z",
            some 3, some (str "jdoe"), none⟩) :=
  ⟨by decide, c5_amended _ _ _ (by decide)⟩

end Engram
